import Mathlib

/-!
# Detection post-processing and pixelation (`script.js`)

A shallow embedding of the canvas script: the two detection policies
(`processPredictionsRefined`, `processPredictionsChaotic`), the block
pixelation (`pixelateFace`), the caption overlay and the image-load handler.

Numbers.  JavaScript numbers are modelled by `JSNum`: the three special
values `NaN`, `+Infinity`, `-Infinity`, and finite values carried as
rationals (zero is unsigned).  Arithmetic and comparisons on the special
values follow IEEE 754 as JavaScript does.  `roundDouble` rounds an exact
result to the nearest number with a 53-bit significand, ties to even: the
rounding of doubles.  The exponent range is not limited: with float32
buffers and canvas sizes below `2^32` no result of the script comes near
the overflow or the subnormal range.

Where rounding is applied.  Inside `pixelateFace` every sum and difference
(the loop bounds `x + width`, `y + height`, the steps `j += pixelSize`,
`i += pixelSize`, and `maxWidth - j`, `maxHeight - i`) is rounded, and so
is the product `Math.random() * 50` of the chaotic pixel size; a loop
counter therefore stops advancing when `pixelSize` is below half a unit in
the last place of the counter.  The tests of the two policies, the region
products, the caption layout and the CSS size are evaluated on exact
values.  The double literal `0.99` lies just below `99/100` with no double
in between, so a double `s` satisfies `s > 0.99` in the script iff
`s > 99/100` as a real number; the same holds for `0.7`, so the thresholds
are the rationals `99/100` and `7/10`.

Drawing.  The pixel content of the canvas is the list of drawing commands
issued on its 2D context since the bitmap was last reset, in order.  The
style in force (`strokeStyle`, `lineWidth`, `fillStyle`, `font`) is recorded
inside the command that uses it.

Randomness.  `Math.random()` is a stream `Env.random` of doubles in
`[0, 1)` together with a counter `State.draws` of the calls made so far.

Sizes.  `canvas.width`, `canvas.height` and the natural size of an image
are `unsigned long` attributes: natural numbers below `2^32`.

Loops.  The `for` loops of `pixelateFace` need not end, so they are run
with fuel: `none` means the fuel ran out.
-/

namespace Script

/-! ## Rounding to doubles -/

/-- Round to the nearest integer, ties to the even one. -/
def roundHalfEven (t : ℚ) : ℤ :=
  if t - ⌊t⌋ < 1 / 2 then ⌊t⌋
  else if 1 / 2 < t - ⌊t⌋ then ⌊t⌋ + 1
  else if ⌊t⌋ % 2 = 0 then ⌊t⌋ else ⌊t⌋ + 1

/-- Rounding of an exact result to a double: for `2^e <= |q| < 2^(e+1)` the
nearest multiple of `2^(e-52)`, ties to the even multiple. -/
def roundDouble (q : ℚ) : ℚ :=
  if q = 0 then 0
  else (roundHalfEven (q / 2 ^ (Int.log 2 |q| - 52)) : ℚ) * 2 ^ (Int.log 2 |q| - 52)

/-! ## JavaScript numbers -/

/-- A JavaScript number: NaN, the two infinities, or a finite value. -/
inductive JSNum where
  | nan : JSNum
  | pinf : JSNum
  | ninf : JSNum
  | fin (q : ℚ) : JSNum
  deriving DecidableEq

namespace JSNum

/-- The number of a non-negative integer (canvas sizes, counters). -/
def ofNat (n : Nat) : JSNum := fin (n : ℚ)

/-- The infinity (or NaN) whose sign is the sign of `s`. -/
def signedInf (s : ℚ) : JSNum :=
  if 0 < s then pinf else if s < 0 then ninf else nan

/-- Sign carrier of a non-NaN number: the value itself when finite. -/
def sign : JSNum → ℚ
  | pinf => 1
  | ninf => -1
  | fin q => q
  | nan => 0

/-- Unary minus. -/
def neg : JSNum → JSNum
  | nan => nan
  | pinf => ninf
  | ninf => pinf
  | fin q => fin (-q)

/-- The `+` operator. -/
def add : JSNum → JSNum → JSNum
  | nan, _ => nan
  | _, nan => nan
  | fin a, fin b => fin (a + b)
  | pinf, ninf => nan
  | ninf, pinf => nan
  | pinf, _ => pinf
  | _, pinf => pinf
  | ninf, _ => ninf
  | _, ninf => ninf

/-- The binary `-` operator. -/
def sub (a b : JSNum) : JSNum := add a (neg b)

/-- Rounding of a result to a double; the special values are unchanged. -/
def round : JSNum → JSNum
  | fin q => fin (roundDouble q)
  | a => a

/-- The `+` operator in double arithmetic. -/
def dadd (a b : JSNum) : JSNum := round (add a b)

/-- The binary `-` operator in double arithmetic. -/
def dsub (a b : JSNum) : JSNum := round (sub a b)

/-- The `*` operator. -/
def mul : JSNum → JSNum → JSNum
  | nan, _ => nan
  | _, nan => nan
  | fin a, fin b => fin (a * b)
  | a, b => signedInf (sign a * sign b)

/-- The `/` operator (zero divisors are `+0`). -/
def div : JSNum → JSNum → JSNum
  | nan, _ => nan
  | _, nan => nan
  | fin a, fin b => if b = 0 then signedInf a else fin (a / b)
  | fin _, _ => fin 0
  | pinf, fin b => if b < 0 then ninf else pinf
  | ninf, fin b => if b < 0 then pinf else ninf
  | _, _ => nan

/-- The `<` operator: false as soon as an operand is NaN. -/
def lt : JSNum → JSNum → Bool
  | fin a, fin b => decide (a < b)
  | ninf, fin _ => true
  | ninf, pinf => true
  | fin _, pinf => true
  | _, _ => false

/-- The `<=` operator: false as soon as an operand is NaN. -/
def le : JSNum → JSNum → Bool
  | fin a, fin b => decide (a ≤ b)
  | nan, _ => false
  | _, nan => false
  | ninf, _ => true
  | _, pinf => true
  | _, _ => false

/-- The `>` operator. -/
def gt (a b : JSNum) : Bool := lt b a

/-- The `>=` operator. -/
def ge (a b : JSNum) : Bool := le b a

/-- Two-argument `Math.min`: NaN if an argument is NaN. -/
def min : JSNum → JSNum → JSNum
  | nan, _ => nan
  | _, nan => nan
  | a, b => if lt b a then b else a

/-- A number is finite when it is neither NaN nor an infinity. -/
def isFinite : JSNum → Bool
  | fin _ => true
  | _ => false

end JSNum

/-! ## Tensors, canvas, environment -/

/-- A tensor of shape `[1, shape1, ...]` with its flat data buffer
(`dataSync()`). -/
structure Tensor where
  shape1 : Nat
  data : List JSNum

/-- The model output `[boxes, scores, classes]`. -/
structure Predictions where
  boxes : Tensor
  scores : Tensor
  classes : Tensor

/-- A decoded image with its natural size. -/
structure Image where
  width : Nat
  height : Nat
  pixels : List Nat
  width_lt : width < 4294967296
  height_lt : height < 4294967296

/-- A CSS colour: a named colour or `rgb(r, g, b)`. -/
inductive Style where
  | named (name : String) : Style
  | rgb (r g b : ℤ) : Style
  deriving DecidableEq

/-- A drawing command issued on the 2D context. -/
inductive DrawOp where
  | clearRect (x y w h : JSNum) : DrawOp
  | drawImage (img : Image) (x y : JSNum) : DrawOp
  | strokeRect (strokeStyle : Style) (lineWidth : ℚ) (x y w h : JSNum) : DrawOp
  | fillRect (fillStyle : Style) (x y w h : JSNum) : DrawOp
  | fillText (fontPx : JSNum) (fillStyle : Style) (text : String) (x y : JSNum) : DrawOp

/-- The canvas element: bitmap size, CSS display size, and the drawing
commands issued since the bitmap was last reset. -/
structure Canvas where
  width : Nat
  height : Nat
  imageSmoothingEnabled : Bool
  styleWidth : Option JSNum
  styleHeight : Option JSNum
  ops : List DrawOp
  width_lt : width < 4294967296
  height_lt : height < 4294967296

/-- What the script reads from outside: the random stream, text metrics and
the window size. -/
structure Env where
  random : Nat → ℚ
  random_range : ∀ k, 0 ≤ random k ∧ random k < 1
  random_double : ∀ k, roundDouble (random k) = random k
  measureText : JSNum → String → JSNum
  innerWidth : Nat
  innerHeight : Nat

/-- The mutable state: the canvas, the number of `Math.random()` calls made
so far, and the console output. -/
structure State where
  canvas : Canvas
  draws : Nat
  console : List String

/-- The loaded model: inference on the current canvas content. -/
structure Model where
  executeAsync : Canvas → Predictions

/-! ## The drawing functions -/

/-- The function `drawBoundingBox`: a red 2px outline. -/
def drawBoundingBox (x y width height : JSNum) (st : State) : State :=
  { st with canvas := { st.canvas with
      ops := st.canvas.ops ++ [DrawOp.strokeRect (Style.named "red") 2 x y width height] } }

/-- One channel of a random colour: `Math.floor(r * 256)`. -/
def randomChannel (r : ℚ) : ℤ := ⌊r * 256⌋

/-- The body of the inner loop of `pixelateFace`: three random channels and
one filled cell at `(j, i)`, clipped to the canvas. -/
def fillCell (env : Env) (i j pixelSize : JSNum) (st : State) : State :=
  let maxWidth := JSNum.ofNat st.canvas.width
  let maxHeight := JSNum.ofNat st.canvas.height
  let r := randomChannel (env.random st.draws)
  let g := randomChannel (env.random (st.draws + 1))
  let b := randomChannel (env.random (st.draws + 2))
  { st with
    draws := st.draws + 3
    canvas := { st.canvas with
      ops := st.canvas.ops ++ [DrawOp.fillRect (Style.rgb r g b) j i
        (JSNum.min pixelSize (JSNum.dsub maxWidth j))
        (JSNum.min pixelSize (JSNum.dsub maxHeight i))] } }

/-- The inner loop of `pixelateFace`, from column `j`:
`for (j; j < x + width && j < maxWidth; j += pixelSize)`. -/
def pixelateRow (env : Env) (xEnd i pixelSize : JSNum) :
    Nat → JSNum → State → Option State
  | 0, _, _ => none
  | fuel + 1, j, st =>
    if JSNum.lt j xEnd && JSNum.lt j (JSNum.ofNat st.canvas.width) then
      pixelateRow env xEnd i pixelSize fuel (JSNum.dadd j pixelSize) (fillCell env i j pixelSize st)
    else some st

/-- The outer loop of `pixelateFace`, from row `i`:
`for (i; i < y + height && i < maxHeight; i += pixelSize)`. -/
def pixelateRows (env : Env) (x xEnd yEnd pixelSize : JSNum) :
    Nat → JSNum → State → Option State
  | 0, _, _ => none
  | fuel + 1, i, st =>
    if JSNum.lt i yEnd && JSNum.lt i (JSNum.ofNat st.canvas.height) then
      match pixelateRow env xEnd i pixelSize fuel x st with
      | none => none
      | some st1 => pixelateRows env x xEnd yEnd pixelSize fuel (JSNum.dadd i pixelSize) st1
    else some st

/-- The function `pixelateFace`. -/
def pixelateFace (env : Env) (fuel : Nat) (x y width height pixelSize : JSNum)
    (st : State) : Option State :=
  pixelateRows env x (JSNum.dadd x width) (JSNum.dadd y height) pixelSize fuel y st

/-- The function `addTextToCanvas`. -/
def addTextToCanvas (env : Env) (text : String) (st : State) : State :=
  let width := JSNum.ofNat st.canvas.width
  let height := JSNum.ofNat st.canvas.height
  let fontSize := JSNum.mul width (JSNum.fin (5 / 100))
  let margin := JSNum.fin 20
  let textSizeWidth := env.measureText fontSize text
  let textX := JSNum.div (JSNum.sub width textSizeWidth) (JSNum.fin 2)
  let textY := JSNum.sub height margin
  { st with canvas := { st.canvas with
      ops := st.canvas.ops ++ [DrawOp.fillText fontSize (Style.named "white") text textX textY] } }

/-- The function `setupCanvas`: setting `canvas.width` / `canvas.height`
resets the bitmap and the context state. -/
def setupCanvas (env : Env) (img : Image) (st : State) : State :=
  let imgAspectRatio := JSNum.div (JSNum.ofNat img.width) (JSNum.ofNat img.height)
  let newWidth0 := JSNum.mul (JSNum.ofNat env.innerWidth) (JSNum.fin (7 / 10))
  let newHeight0 := JSNum.div newWidth0 imgAspectRatio
  let limit := JSNum.mul (JSNum.ofNat env.innerHeight) (JSNum.fin (7 / 10))
  let newHeight := if JSNum.gt newHeight0 limit then limit else newHeight0
  let newWidth := if JSNum.gt newHeight0 limit then JSNum.mul limit imgAspectRatio else newWidth0
  { st with canvas :=
      { width := img.width
        height := img.height
        imageSmoothingEnabled := false
        styleWidth := some newWidth
        styleHeight := some newHeight
        ops := [DrawOp.clearRect (JSNum.fin 0) (JSNum.fin 0) (JSNum.ofNat img.width)
                  (JSNum.ofNat img.height),
                DrawOp.drawImage img (JSNum.fin 0) (JSNum.fin 0)]
        width_lt := img.width_lt
        height_lt := img.height_lt } }

/-! ## The two detection policies -/

/-- The read `scores.dataSync()[i]`; an index past the buffer gives
`undefined`, which compares as NaN. -/
def scoreAt (p : Predictions) (i : Nat) : JSNum := p.scores.data.getD i JSNum.nan

/-- The read `boxes.dataSync().slice(i * 4, (i + 1) * 4)`. -/
def boxSlice (p : Predictions) (i : Nat) : List JSNum :=
  (p.boxes.data.drop (i * 4)).take ((i + 1) * 4 - i * 4)

/-- A denormalised region `(x, y, width, height)`. -/
structure Region where
  x : JSNum
  y : JSNum
  width : JSNum
  height : JSNum
  deriving DecidableEq

/-- The region of detection `i`: the destructuring `[y1, x1, y2, x2]` of the
slice (a missing element is `undefined`, NaN in arithmetic) and the four
products with the canvas size. -/
def regionAt (p : Predictions) (canvasWidth canvasHeight : Nat) (i : Nat) : Region :=
  let s := boxSlice p i
  let y1 := s.getD 0 JSNum.nan
  let x1 := s.getD 1 JSNum.nan
  let y2 := s.getD 2 JSNum.nan
  let x2 := s.getD 3 JSNum.nan
  { width := JSNum.mul (JSNum.sub x2 x1) (JSNum.ofNat canvasWidth)
    height := JSNum.mul (JSNum.sub y2 y1) (JSNum.ofNat canvasHeight)
    x := JSNum.mul x1 (JSNum.ofNat canvasWidth)
    y := JSNum.mul y1 (JSNum.ofNat canvasHeight) }

/-- The bounds test of the refined policy. -/
def refinedBounds (canvasWidth canvasHeight : Nat) (r : Region) : Bool :=
  JSNum.ge r.x (JSNum.fin 0) && JSNum.ge r.y (JSNum.fin 0) &&
  JSNum.gt r.width (JSNum.fin 0) && JSNum.gt r.height (JSNum.fin 0) &&
  JSNum.le (JSNum.add r.x r.width) (JSNum.ofNat canvasWidth) &&
  JSNum.le (JSNum.add r.y r.height) (JSNum.ofNat canvasHeight)

/-- The size test of the chaotic policy. -/
def chaoticBounds (r : Region) : Bool :=
  JSNum.gt r.width (JSNum.fin 10) && JSNum.gt r.height (JSNum.fin 10)

/-- Both tests of the refined loop body for detection `i`. -/
def refinedAccepts (p : Predictions) (canvasWidth canvasHeight : Nat) (i : Nat) : Bool :=
  JSNum.gt (scoreAt p i) (JSNum.fin (99 / 100)) &&
  refinedBounds canvasWidth canvasHeight (regionAt p canvasWidth canvasHeight i)

/-- Both tests of the chaotic loop body for detection `i`. -/
def chaoticAccepts (p : Predictions) (canvasWidth canvasHeight : Nat) (i : Nat) : Bool :=
  JSNum.gt (scoreAt p i) (JSNum.fin (7 / 10)) &&
  chaoticBounds (regionAt p canvasWidth canvasHeight i)

/-- The pixel size of the chaotic policy: `Math.floor(r * 50) + 10`, the
product being a double. -/
def chaoticPixelSize (r : ℚ) : ℤ := ⌊roundDouble (r * 50)⌋ + 10

/-- The pixel size of the refined policy: the literal `50`. -/
def refinedPixelSize : ℤ := 50

/-- The block of the refined loop taken when both tests pass: outline,
pixelate with block size 50, count. -/
def refinedEmit (env : Env) (fuel : Nat) (p : Predictions) (canvasWidth canvasHeight : Nat)
    (acc : State × Nat) (i : Nat) : Option (State × Nat) :=
  let r := regionAt p canvasWidth canvasHeight i
  match pixelateFace env fuel r.x r.y r.width r.height (JSNum.fin refinedPixelSize)
      (drawBoundingBox r.x r.y r.width r.height acc.1) with
  | none => none
  | some st => some (st, acc.2 + 1)

/-- The block of the chaotic loop taken when both tests pass: outline, draw
a pixel size, pixelate, count. -/
def chaoticEmit (env : Env) (fuel : Nat) (p : Predictions) (canvasWidth canvasHeight : Nat)
    (acc : State × Nat) (i : Nat) : Option (State × Nat) :=
  let r := regionAt p canvasWidth canvasHeight i
  let st1 := drawBoundingBox r.x r.y r.width r.height acc.1
  let pixelSize := JSNum.fin (chaoticPixelSize (env.random st1.draws))
  match pixelateFace env fuel r.x r.y r.width r.height pixelSize
      { st1 with draws := st1.draws + 1 } with
  | none => none
  | some st => some (st, acc.2 + 1)

/-- One iteration of the refined loop. -/
def refinedBody (env : Env) (fuel : Nat) (p : Predictions) (canvasWidth canvasHeight : Nat)
    (acc : State × Nat) (i : Nat) : Option (State × Nat) :=
  if refinedAccepts p canvasWidth canvasHeight i then
    refinedEmit env fuel p canvasWidth canvasHeight acc i
  else some acc

/-- One iteration of the chaotic loop. -/
def chaoticBody (env : Env) (fuel : Nat) (p : Predictions) (canvasWidth canvasHeight : Nat)
    (acc : State × Nat) (i : Nat) : Option (State × Nat) :=
  if chaoticAccepts p canvasWidth canvasHeight i then
    chaoticEmit env fuel p canvasWidth canvasHeight acc i
  else some acc

/-- The function `processPredictionsRefined`: the final state and the
returned `faceCount`. -/
def processPredictionsRefined (env : Env) (fuel : Nat) (p : Predictions) (st : State) :
    Option (State × Nat) :=
  (List.range p.scores.shape1).foldlM
    (refinedBody env fuel p st.canvas.width st.canvas.height) (st, 0)

/-- The function `processPredictionsChaotic`: the final state and the
returned `faceCount`. -/
def processPredictionsChaotic (env : Env) (fuel : Nat) (p : Predictions) (st : State) :
    Option (State × Nat) :=
  (List.range p.scores.shape1).foldlM
    (chaoticBody env fuel p st.canvas.width st.canvas.height) (st, 0)

/-- The caption built by the template literal. -/
def caption (faceCount : Nat) : String :=
  "DETECTED " ++ toString faceCount ++ " FACE(S)"

/-- The `img.onload` callback of `handleImageUpload`. -/
def imgOnload (env : Env) (fuel : Nat) (model : Option Model) (img : Image) (st : State) :
    Option State :=
  let st1 := setupCanvas env img st
  match model with
  | none => some { st1 with console := st1.console ++ ["Model not loaded yet."] }
  | some m =>
    let predictions := m.executeAsync st1.canvas
    let randomChoice := env.random st1.draws
    let st2 := { st1 with draws := st1.draws + 1 }
    match (if randomChoice < 1 / 2 then processPredictionsRefined env fuel predictions st2
           else processPredictionsChaotic env fuel predictions st2) with
    | none => none
    | some (st3, faceCount) => some (addTextToCanvas env (caption faceCount) st3)

/-! ## Notions used to state the properties -/

/-- State `st2` is `st1` with the commands `L` appended to the canvas and
nothing else of the canvas or the console changed. -/
def Extends (st1 st2 : State) (L : List DrawOp) : Prop :=
  st2.canvas = { st1.canvas with ops := st1.canvas.ops ++ L } ∧ st2.console = st1.console

/-- The points a filled cell covers: the half-open rectangle
`[x, x + w) × [y, y + h)` of a `fillRect` with finite arguments.  A pixel is
identified with its sample point. -/
def DrawOp.covers : DrawOp → ℚ → ℚ → Bool
  | DrawOp.fillRect _ (JSNum.fin x) (JSNum.fin y) (JSNum.fin w) (JSNum.fin h), px, py =>
    decide (x ≤ px ∧ px < x + w ∧ y ≤ py ∧ py < y + h)
  | _, _, _ => false

/-- The command is a `fillRect`. -/
def DrawOp.isFillRect : DrawOp → Bool
  | DrawOp.fillRect _ _ _ _ _ => true
  | _ => false

/-- Two commands cover no common point. -/
def DrawOp.disjointFrom (a b : DrawOp) : Prop :=
  ∀ px py : ℚ, ¬ (a.covers px py = true ∧ b.covers px py = true)

/-- The outline command `drawBoundingBox` issues for a region. -/
def outlineOf (r : Region) : DrawOp :=
  DrawOp.strokeRect (Style.named "red") 2 r.x r.y r.width r.height

/-- The indices `0 .. n-1` that pass a test, in increasing order. -/
def survivors (accepts : Nat → Bool) (n : Nat) : List Nat :=
  (List.range n).filter accepts

/-- Detection `i` is malformed: the boxes buffer supplies fewer than four
numbers for it, or one of its coordinates is NaN or an infinity. -/
def malformed (p : Predictions) (i : Nat) : Prop :=
  (boxSlice p i).length < 4 ∨ ∃ v ∈ boxSlice p i, v.isFinite = false

/-- Detection `i` lacks a coordinate or has a NaN coordinate. -/
def malformedNaN (p : Predictions) (i : Nat) : Prop :=
  (boxSlice p i).length < 4 ∨ JSNum.nan ∈ boxSlice p i

/-! ## Concrete inputs -/

/-- An environment whose random stream is constantly `0`. -/
def envZero : Env :=
  { random := fun _ => 0
    random_range := fun _ => ⟨le_refl 0, zero_lt_one⟩
    random_double := fun _ => if_pos rfl
    measureText := fun _ _ => JSNum.fin 100
    innerWidth := 1000
    innerHeight := 800 }

/-- A state with an empty canvas of the given size (an `unsigned long`, so
taken modulo `2^32`). -/
def blank (w h : Nat) : State :=
  { canvas :=
      { width := w % 4294967296, height := h % 4294967296, imageSmoothingEnabled := true,
        styleWidth := none, styleHeight := none, ops := []
        width_lt := Nat.mod_lt _ (by decide)
        height_lt := Nat.mod_lt _ (by decide) }
    draws := 0
    console := [] }

/-- Predictions with the given flat boxes and scores buffers. -/
def mkPredictions (boxes scores : List JSNum) : Predictions :=
  { boxes := { shape1 := scores.length, data := boxes }
    scores := { shape1 := scores.length, data := scores }
    classes := { shape1 := scores.length, data := scores.map (fun _ => JSNum.fin 0) } }

/-- Three detections with scores 0.995, 0.999, 0.5; the first two boxes lie
inside a 200 x 100 surface. -/
def threeDetections : Predictions :=
  mkPredictions
    [JSNum.fin (1 / 10), JSNum.fin (1 / 10), JSNum.fin (1 / 2), JSNum.fin (1 / 2),
     JSNum.fin (1 / 5), JSNum.fin (1 / 2), JSNum.fin (9 / 10), JSNum.fin 1,
     JSNum.fin 0, JSNum.fin 0, JSNum.fin 1, JSNum.fin 1]
    [JSNum.fin (995 / 1000), JSNum.fin (999 / 1000), JSNum.fin (1 / 2)]

/-- One confident detection whose box is 4 x 2 pixels on a 200 x 100 surface. -/
def tinyDetection : Predictions :=
  mkPredictions [JSNum.fin 0, JSNum.fin 0, JSNum.fin (1 / 50), JSNum.fin (1 / 50)]
    [JSNum.fin (995 / 1000)]

/-- One detection whose `x2` coordinate is `+Infinity`. -/
def infiniteDetection : Predictions :=
  mkPredictions [JSNum.fin 0, JSNum.fin 0, JSNum.fin 1, JSNum.pinf] [JSNum.fin (9 / 10)]

/-- One detection whose `x1` coordinate is NaN. -/
def nanDetection : Predictions :=
  mkPredictions [JSNum.fin 0, JSNum.nan, JSNum.fin 1, JSNum.fin 1] [JSNum.fin (999 / 1000)]

/-- A model that reports one detection of score 0.5 covering the image. -/
def lowScoreModel : Model :=
  { executeAsync := fun _ =>
      mkPredictions [JSNum.fin 0, JSNum.fin 0, JSNum.fin 1, JSNum.fin 1] [JSNum.fin (1 / 2)] }

/-- A 200 x 100 image. -/
def sampleImage : Image :=
  { width := 200, height := 100, pixels := [], width_lt := by decide, height_lt := by decide }

/-- One detection with score 0.9 and box `[0, x1, 1, 0]` whose `x1` is the
float32 nearest to `-1e18`, that is `-14551915 * 2^36`. -/
def farLeftDetection : Predictions :=
  mkPredictions [JSNum.fin 0, JSNum.fin (-(14551915 * 2 ^ 36)), JSNum.fin 1, JSNum.fin 0]
    [JSNum.fin (9 / 10)]

/-- A double just below `34/50` whose product with 50 rounds to `34`. -/
def drawBelow34 : ℚ := 3062447746611937 / 2 ^ 52

/-! ## Lemmas -/

/-! ### Rounding -/

theorem roundHalfEven_bounds (t : ℚ) : ⌊t⌋ ≤ roundHalfEven t ∧ roundHalfEven t ≤ ⌊t⌋ + 1 := by
  unfold roundHalfEven
  split_ifs <;> constructor <;> omega

theorem roundHalfEven_ge (t : ℚ) (z : ℤ) (h : (z : ℚ) ≤ t) : z ≤ roundHalfEven t :=
  (Int.le_floor.mpr h).trans (roundHalfEven_bounds t).1

theorem roundHalfEven_intCast (z : ℤ) : roundHalfEven (z : ℚ) = z := by
  unfold roundHalfEven
  simp

theorem roundHalfEven_le_of_lt_half (t : ℚ) (z : ℤ) (h : t < z + 1 / 2) :
    roundHalfEven t ≤ z := by
  by_cases hz : ⌊t⌋ + 1 ≤ z
  · exact (roundHalfEven_bounds t).2.trans hz
  · have h1 : z ≤ ⌊t⌋ := by omega
    have h2 : (⌊t⌋ : ℚ) ≤ t := Int.floor_le t
    have h3 : ((⌊t⌋ : ℤ) : ℚ) < (z : ℚ) + 1 := by linarith
    have h4 : ⌊t⌋ < z + 1 := by exact_mod_cast h3
    have h5 : ⌊t⌋ = z := by omega
    unfold roundHalfEven
    rw [h5]
    have : t - (z : ℚ) < 1 / 2 := by linarith
    rw [if_pos this]

theorem roundHalfEven_le (t : ℚ) (z : ℤ) (h : t ≤ z) : roundHalfEven t ≤ z :=
  roundHalfEven_le_of_lt_half t z (by linarith)

theorem roundHalfEven_ge_of_gt_half (t : ℚ) (z : ℤ) (h : (z : ℚ) - 1 / 2 < t) :
    z ≤ roundHalfEven t := by
  by_cases hz : z ≤ ⌊t⌋
  · exact hz.trans (roundHalfEven_bounds t).1
  · have h1 : ⌊t⌋ + 1 ≤ z := by omega
    have h2 : t < (⌊t⌋ : ℚ) + 1 := Int.lt_floor_add_one t
    have h3 : (z : ℚ) - 2 < ((⌊t⌋ : ℤ) : ℚ) := by linarith
    have h4 : z - 2 < ⌊t⌋ := by exact_mod_cast h3
    have h5 : ⌊t⌋ = z - 1 := by omega
    have h6 : (⌊t⌋ : ℚ) = (z : ℚ) - 1 := by rw [h5]; push_cast; ring
    unfold roundHalfEven
    have a : ¬ (t - (⌊t⌋ : ℚ) < 1 / 2) := by rw [h6]; intro hc; linarith
    have b : 1 / 2 < t - (⌊t⌋ : ℚ) := by rw [h6]; linarith
    simp only [a, b, if_false, if_true]
    omega

theorem roundHalfEven_eq_of_abs_lt (t : ℚ) (z : ℤ) (h : |t - z| < 1 / 2) :
    roundHalfEven t = z := by
  rw [abs_lt] at h
  exact le_antisymm (roundHalfEven_le_of_lt_half t z (by linarith))
    (roundHalfEven_ge_of_gt_half t z (by linarith))

theorem log_two_eq (q : ℚ) (hq : 0 < q) (e : ℤ) (h1 : (2 : ℚ) ^ e ≤ q)
    (h2 : q < (2 : ℚ) ^ (e + 1)) : Int.log 2 q = e := by
  have a : e ≤ Int.log 2 q := by
    rw [← Int.zpow_le_iff_le_log (by norm_num) hq]
    simpa using h1
  have b : Int.log 2 q < e + 1 := by
    rw [← Int.lt_zpow_iff_log_lt (by norm_num) hq]
    simpa using h2
  omega

theorem roundDouble_of_binade (q : ℚ) (hq : q ≠ 0) (e : ℤ) (h1 : (2 : ℚ) ^ e ≤ |q|)
    (h2 : |q| < (2 : ℚ) ^ (e + 1)) :
    roundDouble q = (roundHalfEven (q / 2 ^ (e - 52)) : ℚ) * 2 ^ (e - 52) := by
  unfold roundDouble
  rw [if_neg hq, log_two_eq |q| (abs_pos.mpr hq) e h1 h2]

theorem binade_bounds (q : ℚ) (hq : q ≠ 0) :
    (2 : ℚ) ^ (Int.log 2 |q|) ≤ |q| ∧ |q| < (2 : ℚ) ^ (Int.log 2 |q| + 1) := by
  constructor
  · have h : ((2 : ℕ) : ℚ) ^ Int.log 2 |q| ≤ |q| :=
      Int.zpow_log_le_self (by norm_num) (abs_pos.mpr hq)
    simpa using h
  · have h : |q| < ((2 : ℕ) : ℚ) ^ (Int.log 2 |q| + 1) :=
      Int.lt_zpow_succ_log_self (by norm_num) |q|
    simpa using h


theorem roundDouble_zero : roundDouble 0 = 0 := by
  simp [roundDouble]

theorem roundDouble_nonneg (q : ℚ) (hq : 0 ≤ q) : 0 ≤ roundDouble q := by
  unfold roundDouble
  split_ifs with h0
  · exact le_refl 0
  · have hu : (0 : ℚ) < 2 ^ (Int.log 2 |q| - 52) := zpow_pos (by norm_num) _
    have h1 : (0 : ℤ) ≤ roundHalfEven (q / 2 ^ (Int.log 2 |q| - 52)) :=
      roundHalfEven_ge _ 0 (by simpa using div_nonneg hq hu.le)
    have h2 : (0 : ℚ) ≤ (roundHalfEven (q / 2 ^ (Int.log 2 |q| - 52)) : ℚ) := by
      exact_mod_cast h1
    exact mul_nonneg h2 hu.le

theorem zpow_sub_nat (e : ℤ) (k : ℕ) (h : e - 52 = -(k : ℤ)) :
    (2 : ℚ) ^ (e - 52) = ((2 : ℚ) ^ k)⁻¹ := by
  rw [h, zpow_neg, zpow_natCast]

theorem roundDouble_exists_binade (q : ℚ) (hq : q ≠ 0) :
    ∃ e : ℤ, (2 : ℚ) ^ e ≤ |q| ∧ |q| < (2 : ℚ) ^ (e + 1) ∧
      roundDouble q = (roundHalfEven (q / 2 ^ (e - 52)) : ℚ) * 2 ^ (e - 52) :=
  ⟨Int.log 2 |q|, (binade_bounds q hq).1, (binade_bounds q hq).2,
    roundDouble_of_binade q hq _ (binade_bounds q hq).1 (binade_bounds q hq).2⟩

theorem two_zpow_split (e : ℤ) : (2 : ℚ) ^ (52 : ℤ) * 2 ^ (e - 52) = 2 ^ e := by
  rw [← zpow_add₀ (by norm_num : (2 : ℚ) ≠ 0)]
  congr 1
  ring

/-- Scaling by a power of two commutes with rounding. -/
theorem roundDouble_mul_zpow (q : ℚ) (s : ℤ) :
    roundDouble (q * 2 ^ s) = roundDouble q * 2 ^ s := by
  by_cases hq : q = 0
  · simp [hq, roundDouble_zero]
  · obtain ⟨e, h1, h2, hr⟩ := roundDouble_exists_binade q hq
    have hs : (0 : ℚ) < 2 ^ s := zpow_pos (by norm_num) _
    have hq2 : q * 2 ^ s ≠ 0 := mul_ne_zero hq hs.ne'
    have habs : |q * 2 ^ s| = |q| * 2 ^ s := by rw [abs_mul, abs_of_pos hs]
    have e1 : (2 : ℚ) ^ (e + s) ≤ |q * 2 ^ s| := by
      rw [habs, zpow_add₀ (by norm_num)]
      exact mul_le_mul_of_nonneg_right h1 hs.le
    have e2 : |q * 2 ^ s| < (2 : ℚ) ^ (e + s + 1) := by
      rw [habs, show e + s + 1 = (e + 1) + s by ring, zpow_add₀ (by norm_num)]
      exact mul_lt_mul_of_pos_right h2 hs
    rw [roundDouble_of_binade _ hq2 _ e1 e2, hr]
    have hexp : (2 : ℚ) ^ (e + s - 52) = 2 ^ (e - 52) * 2 ^ s := by
      rw [show e + s - 52 = (e - 52) + s by ring, zpow_add₀ (by norm_num)]
    have hu : (0 : ℚ) < 2 ^ (e - 52) := zpow_pos (by norm_num) _
    have hdiv : q * 2 ^ s / (2 ^ (e - 52) * 2 ^ s) = q / 2 ^ (e - 52) := by
      field_simp
      ring
    rw [hexp, hdiv]
    ring

/-- Integers up to `2^53` in absolute value are doubles. -/
theorem roundDouble_intCast (z : ℤ) (hz : |z| ≤ 2 ^ 53) : roundDouble (z : ℚ) = z := by
  by_cases h0 : z = 0
  · simp [h0, roundDouble_zero]
  · have hq : (z : ℚ) ≠ 0 := by exact_mod_cast h0
    obtain ⟨e, h1, h2, hr⟩ := roundDouble_exists_binade (z : ℚ) hq
    have habs : |(z : ℚ)| ≤ (2 : ℚ) ^ (53 : ℤ) := by
      have : ((|z| : ℤ) : ℚ) ≤ ((2 ^ 53 : ℤ) : ℚ) := by exact_mod_cast hz
      rw [Int.cast_abs] at this
      calc |(z : ℚ)| ≤ ((2 ^ 53 : ℤ) : ℚ) := this
        _ = (2 : ℚ) ^ (53 : ℤ) := by norm_num
    have he53 : e ≤ 53 := by
      by_contra hcon
      have h54 : (54 : ℤ) ≤ e := by omega
      have : (2 : ℚ) ^ (54 : ℤ) ≤ 2 ^ e := zpow_le_zpow_right₀ (by norm_num) h54
      have h3 : (2 : ℚ) ^ (54 : ℤ) ≤ 2 ^ (53 : ℤ) := this.trans (h1.trans habs)
      norm_num at h3
    rw [hr]
    by_cases hcase : e ≤ 52
    · obtain ⟨k, hk⟩ : ∃ k : ℕ, e - 52 = -(k : ℤ) := ⟨(52 - e).toNat, by omega⟩
      rw [zpow_sub_nat _ k hk]
      have hcast : (z : ℚ) / ((2 : ℚ) ^ k)⁻¹ = ((z * 2 ^ k : ℤ) : ℚ) := by
        push_cast
        rw [div_inv_eq_mul]
      rw [hcast, roundHalfEven_intCast]
      have hk2 : (2 : ℚ) ^ k ≠ 0 := pow_ne_zero _ (by norm_num)
      push_cast
      field_simp
    · have he : e = 53 := by omega
      subst he
      have hz2 : |(z : ℚ)| = (2 : ℚ) ^ (53 : ℤ) := le_antisymm habs h1
      have hcases : (z : ℚ) = 2 ^ (53 : ℤ) ∨ (z : ℚ) = -2 ^ (53 : ℤ) := by
        rcases abs_choice (z : ℚ) with h | h
        · left; rw [← h]; exact hz2
        · right; rw [← hz2, h]; ring
      rcases hcases with h | h
      · have hcast : (z : ℚ) / 2 ^ ((53 : ℤ) - 52) = (((2 : ℤ) ^ 52 : ℤ) : ℚ) := by
          rw [h]; norm_num
        rw [hcast, roundHalfEven_intCast, h]
        norm_num
      · have hcast : (z : ℚ) / 2 ^ ((53 : ℤ) - 52) = ((-(2 : ℤ) ^ 52 : ℤ) : ℚ) := by
          rw [h]; norm_num
        rw [hcast, roundHalfEven_intCast, h]
        norm_num

theorem roundDouble_natCast (n : ℕ) (hn : n ≤ 2 ^ 53) : roundDouble (n : ℚ) = n := by
  have := roundDouble_intCast (n : ℤ) (by
    rw [abs_of_nonneg (Int.natCast_nonneg n)]
    exact_mod_cast hn)
  simpa using this

/-- Rounding does not go below a natural number (up to `2^53`) that the
exact value reaches. -/
theorem roundDouble_ge_nat (n : ℕ) (hn : n ≤ 2 ^ 53) (q : ℚ) (h : (n : ℚ) ≤ q) :
    (n : ℚ) ≤ roundDouble q := by
  by_cases hn0 : n = 0
  · subst hn0
    simpa using roundDouble_nonneg q (by simpa using h)
  · have hn1 : (1 : ℚ) ≤ n := by exact_mod_cast Nat.one_le_iff_ne_zero.mpr hn0
    have hqpos : 0 < q := by linarith
    have hq : q ≠ 0 := hqpos.ne'
    obtain ⟨e, h1, h2, hr⟩ := roundDouble_exists_binade q hq
    rw [abs_of_pos hqpos] at h1 h2
    have hu : (0 : ℚ) < 2 ^ (e - 52) := zpow_pos (by norm_num) _
    rw [hr]
    by_cases hcase : e ≤ 52
    · obtain ⟨k, hk⟩ : ∃ k : ℕ, e - 52 = -(k : ℤ) := ⟨(52 - e).toNat, by omega⟩
      rw [zpow_sub_nat _ k hk, div_inv_eq_mul]
      have hk2 : (0 : ℚ) < (2 : ℚ) ^ k := pow_pos (by norm_num) _
      have hge : (((n : ℤ) * 2 ^ k : ℤ) : ℚ) ≤ q * 2 ^ k := by
        push_cast
        exact mul_le_mul_of_nonneg_right h hk2.le
      have hr2 : (((n : ℤ) * 2 ^ k : ℤ) : ℚ) ≤ (roundHalfEven (q * 2 ^ k) : ℚ) := by
        exact_mod_cast roundHalfEven_ge _ _ hge
      push_cast at hr2
      rw [le_mul_inv_iff₀ hk2]
      exact hr2
    · have he : (53 : ℤ) ≤ e := by omega
      have hge : (((2 : ℤ) ^ 52 : ℤ) : ℚ) ≤ q / 2 ^ (e - 52) := by
        rw [le_div_iff₀ hu]
        have hc : (((2 : ℤ) ^ 52 : ℤ) : ℚ) = (2 : ℚ) ^ (52 : ℤ) := by norm_num
        rw [hc, two_zpow_split]
        exact h1
      have hr2 : (((2 : ℤ) ^ 52 : ℤ) : ℚ) ≤ (roundHalfEven (q / 2 ^ (e - 52)) : ℚ) := by
        exact_mod_cast roundHalfEven_ge _ _ hge
      have hc : (((2 : ℤ) ^ 52 : ℤ) : ℚ) = (2 : ℚ) ^ (52 : ℤ) := by norm_num
      rw [hc] at hr2
      have h53 : (2 : ℚ) ^ (53 : ℤ) ≤ 2 ^ e := zpow_le_zpow_right₀ (by norm_num) he
      have hn53 : (n : ℚ) ≤ 2 ^ (53 : ℤ) := by
        have : ((n : ℕ) : ℚ) ≤ ((2 ^ 53 : ℕ) : ℚ) := by exact_mod_cast hn
        calc (n : ℚ) ≤ ((2 ^ 53 : ℕ) : ℚ) := this
          _ = (2 : ℚ) ^ (53 : ℤ) := by norm_num
      calc (n : ℚ) ≤ 2 ^ (53 : ℤ) := hn53
        _ ≤ 2 ^ e := h53
        _ = 2 ^ (52 : ℤ) * 2 ^ (e - 52) := (two_zpow_split e).symm
        _ ≤ _ := mul_le_mul_of_nonneg_right hr2 hu.le



namespace JSNum

@[simp] theorem add_fin (a b : ℚ) : add (fin a) (fin b) = fin (a + b) := rfl
@[simp] theorem neg_fin (a : ℚ) : neg (fin a) = fin (-a) := rfl
@[simp] theorem sub_fin (a b : ℚ) : sub (fin a) (fin b) = fin (a - b) := by
  simp [sub, sub_eq_add_neg]
@[simp] theorem mul_fin (a b : ℚ) : mul (fin a) (fin b) = fin (a * b) := rfl
@[simp] theorem lt_fin (a b : ℚ) : lt (fin a) (fin b) = decide (a < b) := rfl
@[simp] theorem le_fin (a b : ℚ) : le (fin a) (fin b) = decide (a ≤ b) := rfl
@[simp] theorem dadd_fin (a b : ℚ) : dadd (fin a) (fin b) = fin (roundDouble (a + b)) := rfl
@[simp] theorem dsub_fin (a b : ℚ) : dsub (fin a) (fin b) = fin (roundDouble (a - b)) := by
  simp [dsub, round]
@[simp] theorem min_fin (a b : ℚ) : JSNum.min (fin a) (fin b) = fin (Min.min a b) := by
  simp only [JSNum.min, lt_fin]
  by_cases h : b < a
  · simp [h, min_eq_right h.le]
  · simp [h, min_eq_left (not_lt.mp h)]

end JSNum

theorem Extends.refl (st : State) : Extends st st [] := by
  simp [Extends]

theorem Extends.trans {s1 s2 s3 : State} {L1 L2 : List DrawOp}
    (h1 : Extends s1 s2 L1) (h2 : Extends s2 s3 L2) : Extends s1 s3 (L1 ++ L2) := by
  obtain ⟨a1, b1⟩ := h1
  obtain ⟨a2, b2⟩ := h2
  refine ⟨?_, b2.trans b1⟩
  rw [a2, a1]
  simp

theorem Extends.width {s1 s2 : State} {L : List DrawOp} (h : Extends s1 s2 L) :
    s2.canvas.width = s1.canvas.width := by
  rw [h.1]

theorem Extends.height {s1 s2 : State} {L : List DrawOp} (h : Extends s1 s2 L) :
    s2.canvas.height = s1.canvas.height := by
  rw [h.1]

theorem Extends.ops {s1 s2 : State} {L : List DrawOp} (h : Extends s1 s2 L) :
    s2.canvas.ops = s1.canvas.ops ++ L := by
  rw [h.1]

theorem fillCell_extends (env : Env) (i j ps : JSNum) (st : State) :
    Extends st (fillCell env i j ps st)
      [DrawOp.fillRect
        (Style.rgb (randomChannel (env.random st.draws))
          (randomChannel (env.random (st.draws + 1)))
          (randomChannel (env.random (st.draws + 2)))) j i
        (JSNum.min ps (JSNum.dsub (JSNum.ofNat st.canvas.width) j))
        (JSNum.min ps (JSNum.dsub (JSNum.ofNat st.canvas.height) i))] := by
  simp [Extends, fillCell]

@[simp] theorem fillCell_width (env : Env) (i j ps : JSNum) (st : State) :
    (fillCell env i j ps st).canvas.width = st.canvas.width := rfl

@[simp] theorem fillCell_height (env : Env) (i j ps : JSNum) (st : State) :
    (fillCell env i j ps st).canvas.height = st.canvas.height := rfl

theorem drawBoundingBox_extends (x y w h : JSNum) (st : State) :
    Extends st (drawBoundingBox x y w h st)
      [DrawOp.strokeRect (Style.named "red") 2 x y w h] := by
  simp [Extends, drawBoundingBox]

/-! ### Fuel monotonicity -/

theorem pixelateRow_mono (env : Env) (xEnd i ps : JSNum) :
    ∀ (fuel : Nat) (j : JSNum) (st r : State),
      pixelateRow env xEnd i ps fuel j st = some r →
      pixelateRow env xEnd i ps (fuel + 1) j st = some r := by
  intro fuel
  induction fuel with
  | zero => intro j st r h; simp [pixelateRow] at h
  | succ n ih =>
    intro j st r h
    rw [pixelateRow] at h ⊢
    split_ifs at h ⊢ with hc
    · exact ih _ _ _ h
    · exact h

theorem pixelateRow_mono_le (env : Env) (xEnd i ps : JSNum) {fuel fuel2 : Nat}
    (hle : fuel ≤ fuel2) {j : JSNum} {st r : State}
    (h : pixelateRow env xEnd i ps fuel j st = some r) :
    pixelateRow env xEnd i ps fuel2 j st = some r := by
  induction hle with
  | refl => exact h
  | step _ ih => exact pixelateRow_mono env xEnd i ps _ _ _ _ ih

theorem pixelateRows_mono (env : Env) (x xEnd yEnd ps : JSNum) :
    ∀ (fuel : Nat) (i : JSNum) (st r : State),
      pixelateRows env x xEnd yEnd ps fuel i st = some r →
      pixelateRows env x xEnd yEnd ps (fuel + 1) i st = some r := by
  intro fuel
  induction fuel with
  | zero => intro i st r h; simp [pixelateRows] at h
  | succ n ih =>
    intro i st r h
    rw [pixelateRows] at h ⊢
    split_ifs at h ⊢ with hc
    · cases hrow : pixelateRow env xEnd i ps n x st with
      | none => simp [hrow] at h
      | some st1 =>
        rw [hrow] at h
        rw [pixelateRow_mono env xEnd i ps _ _ _ _ hrow]
        exact ih _ _ _ h
    · exact h

theorem pixelateRows_mono_le (env : Env) (x xEnd yEnd ps : JSNum) {fuel fuel2 : Nat}
    (hle : fuel ≤ fuel2) {i : JSNum} {st r : State}
    (h : pixelateRows env x xEnd yEnd ps fuel i st = some r) :
    pixelateRows env x xEnd yEnd ps fuel2 i st = some r := by
  induction hle with
  | refl => exact h
  | step _ ih => exact pixelateRows_mono env x xEnd yEnd ps _ _ _ _ ih


/-! ### Frame: the pixelation loops only append `fillRect` commands -/

theorem pixelateRow_frame (env : Env) (xEnd i ps : JSNum) :
    ∀ (fuel : Nat) (j : JSNum) (st r : State),
      pixelateRow env xEnd i ps fuel j st = some r →
      ∃ L, Extends st r L ∧ ∀ op ∈ L, op.isFillRect = true := by
  intro fuel
  induction fuel with
  | zero => intro j st r h; simp [pixelateRow] at h
  | succ n ih =>
    intro j st r h
    rw [pixelateRow] at h
    split_ifs at h with hc
    · obtain ⟨L, hL, hfill⟩ := ih _ _ _ h
      refine ⟨_, (fillCell_extends env i j ps st).trans hL, ?_⟩
      intro op hop
      rcases List.mem_append.mp hop with h1 | h1
      · rw [List.mem_singleton] at h1
        rw [h1]; rfl
      · exact hfill op h1
    · cases h
      exact ⟨[], Extends.refl st, by simp⟩

theorem pixelateRows_frame (env : Env) (x xEnd yEnd ps : JSNum) :
    ∀ (fuel : Nat) (i : JSNum) (st r : State),
      pixelateRows env x xEnd yEnd ps fuel i st = some r →
      ∃ L, Extends st r L ∧ ∀ op ∈ L, op.isFillRect = true := by
  intro fuel
  induction fuel with
  | zero => intro i st r h; simp [pixelateRows] at h
  | succ n ih =>
    intro i st r h
    rw [pixelateRows] at h
    split_ifs at h with hc
    · cases hrow : pixelateRow env xEnd i ps n x st with
      | none => simp [hrow] at h
      | some st1 =>
        rw [hrow] at h
        obtain ⟨L1, hL1, hf1⟩ := pixelateRow_frame env xEnd i ps _ _ _ _ hrow
        obtain ⟨L2, hL2, hf2⟩ := ih _ _ _ h
        refine ⟨L1 ++ L2, hL1.trans hL2, ?_⟩
        intro op hop
        rcases List.mem_append.mp hop with h1 | h1
        · exact hf1 op h1
        · exact hf2 op h1
    · cases h
      exact ⟨[], Extends.refl st, by simp⟩

theorem pixelateFace_frame (env : Env) (fuel : Nat) (x y w h ps : JSNum) (st r : State)
    (hr : pixelateFace env fuel x y w h ps st = some r) :
    ∃ L, Extends st r L ∧ ∀ op ∈ L, op.isFillRect = true :=
  pixelateRows_frame env _ _ _ _ _ _ _ _ hr


/-! ### Termination of the pixelation loops from a non-negative start -/

theorem pixelateRow_nonneg_terminates (env : Env) (xEnd i : JSNum) (n : Nat) (hn : 0 < n)
    (hn2 : n ≤ 2 ^ 32) :
    ∀ (t m : Nat) (q : ℚ) (st : State), (m : ℚ) ≤ q → st.canvas.width ≤ m + t * n →
      ∃ r, pixelateRow env xEnd i (JSNum.fin n) (t + 1) (JSNum.fin q) st = some r := by
  intro t
  induction t with
  | zero =>
    intro m q st hm hW
    have hq : ¬ q < (st.canvas.width : ℚ) := by
      have : (st.canvas.width : ℚ) ≤ m := by exact_mod_cast (by omega : st.canvas.width ≤ m)
      intro hc
      linarith
    rw [pixelateRow]
    simp [JSNum.ofNat, hq]
  | succ t ih =>
    intro m q st hm hW
    rw [pixelateRow]
    split_ifs with hc
    · simp only [JSNum.ofNat, JSNum.lt_fin, Bool.and_eq_true, decide_eq_true_eq] at hc
      have hmW : m < st.canvas.width := by
        have : (m : ℚ) < (st.canvas.width : ℚ) := lt_of_le_of_lt hm hc.2
        exact_mod_cast this
      have hWlt := st.canvas.width_lt
      rw [JSNum.dadd_fin]
      apply ih (m + n)
      · have hb : m + n ≤ 2 ^ 53 := by
          have : (2 : Nat) ^ 32 = 4294967296 := by norm_num
          have : (2 : Nat) ^ 53 = 9007199254740992 := by norm_num
          omega
        have := roundDouble_ge_nat (m + n) hb (q + n) (by push_cast; linarith)
        exact this
      · rw [fillCell_width]
        have : m + (t + 1) * n = m + n + t * n := by ring
        omega
    · exact ⟨st, rfl⟩

theorem pixelateRow_terminates (env : Env) (x w : JSNum) (hx : ∀ q, x = JSNum.fin q → 0 ≤ q)
    (n : Nat) (hn : 0 < n) (hn2 : n ≤ 2 ^ 32) (W : Nat) :
    ∃ F, ∀ (i : JSNum) (st : State), st.canvas.width = W →
      ∃ r, pixelateRow env (JSNum.dadd x w) i (JSNum.fin n) F x st = some r := by
  cases x with
  | nan => exact ⟨1, fun i st _ => ⟨st, by simp [pixelateRow, JSNum.lt]⟩⟩
  | pinf => exact ⟨1, fun i st _ => ⟨st, by simp [pixelateRow, JSNum.lt]⟩⟩
  | ninf =>
    refine ⟨1, fun i st _ => ⟨st, ?_⟩⟩
    cases w <;> simp [pixelateRow, JSNum.lt, JSNum.dadd, JSNum.add, JSNum.round]
  | fin q =>
    refine ⟨W + 1, fun i st hst => ?_⟩
    apply pixelateRow_nonneg_terminates env _ _ n hn hn2 W 0 q st
    · simpa using hx q rfl
    · rw [hst]
      have : W ≤ W * n := Nat.le_mul_of_pos_right W hn
      omega

theorem pixelateRows_nonneg_terminates (env : Env) (x w yEnd : JSNum) (n : Nat) (hn : 0 < n)
    (hn2 : n ≤ 2 ^ 32) (W : Nat) (F : Nat)
    (hF : ∀ (i : JSNum) (st : State), st.canvas.width = W →
      ∃ r, pixelateRow env (JSNum.dadd x w) i (JSNum.fin n) F x st = some r) :
    ∀ (t m : Nat) (q : ℚ) (st : State), st.canvas.width = W → (m : ℚ) ≤ q →
      st.canvas.height ≤ m + t * n →
      ∃ r, pixelateRows env x (JSNum.dadd x w) yEnd (JSNum.fin n) (F + t + 1) (JSNum.fin q) st
        = some r := by
  intro t
  induction t with
  | zero =>
    intro m q st _ hm hH
    have hq : ¬ q < (st.canvas.height : ℚ) := by
      have : (st.canvas.height : ℚ) ≤ m := by exact_mod_cast (by omega : st.canvas.height ≤ m)
      intro hc
      linarith
    rw [pixelateRows]
    simp [JSNum.ofNat, hq]
  | succ t ih =>
    intro m q st hW hm hH
    rw [pixelateRows]
    split_ifs with hc
    · simp only [JSNum.ofNat, JSNum.lt_fin, Bool.and_eq_true, decide_eq_true_eq] at hc
      have hmH : m < st.canvas.height := by
        have : (m : ℚ) < (st.canvas.height : ℚ) := lt_of_le_of_lt hm hc.2
        exact_mod_cast this
      have hHlt := st.canvas.height_lt
      obtain ⟨st1, h1⟩ := hF (JSNum.fin q) st hW
      have h1b : pixelateRow env (JSNum.dadd x w) (JSNum.fin q) (JSNum.fin n) (F + (t + 1)) x st
          = some st1 := pixelateRow_mono_le env _ _ _ (by omega) h1
      rw [h1b]
      obtain ⟨L, hL, _⟩ := pixelateRow_frame env _ _ _ _ _ _ _ h1
      simp only [JSNum.dadd_fin]
      apply ih (m + n) _ st1 (hL.width.trans hW)
      · have hb : m + n ≤ 2 ^ 53 := by
          have : (2 : Nat) ^ 32 = 4294967296 := by norm_num
          have : (2 : Nat) ^ 53 = 9007199254740992 := by norm_num
          omega
        have := roundDouble_ge_nat (m + n) hb (q + n) (by push_cast; linarith)
        exact this
      · rw [hL.height]
        have : m + (t + 1) * n = m + n + t * n := by ring
        omega
    · exact ⟨st, rfl⟩

/-- From a start `(x, y)` whose finite coordinates are non-negative, and
for a pixel size that is a positive integer up to `2^32`, `pixelateFace`
returns, with the same result for every large enough fuel. -/
theorem pixelateFace_terminates (env : Env) (x y w h : JSNum)
    (hx : ∀ q, x = JSNum.fin q → 0 ≤ q) (hy : ∀ q, y = JSNum.fin q → 0 ≤ q)
    (n : Nat) (hn : 0 < n) (hn2 : n ≤ 2 ^ 32) (st : State) :
    ∃ r f0, ∀ fuel, f0 ≤ fuel → pixelateFace env fuel x y w h (JSNum.fin n) st = some r := by
  obtain ⟨F, hF⟩ := pixelateRow_terminates env x w hx n hn hn2 st.canvas.width
  have key : ∃ r f0, pixelateRows env x (JSNum.dadd x w) (JSNum.dadd y h) (JSNum.fin n) f0 y st
      = some r := by
    cases y with
    | nan => exact ⟨st, 1, by simp [pixelateRows, JSNum.lt]⟩
    | pinf => exact ⟨st, 1, by simp [pixelateRows, JSNum.lt]⟩
    | ninf =>
      exact ⟨st, 1, by
        cases h <;> simp [pixelateRows, JSNum.lt, JSNum.dadd, JSNum.add, JSNum.round]⟩
    | fin q =>
      obtain ⟨r, hr⟩ := pixelateRows_nonneg_terminates env x w (JSNum.dadd (JSNum.fin q) h) n hn
        hn2 st.canvas.width F hF st.canvas.height 0 q st rfl (by simpa using hy q rfl) (by
          have : st.canvas.height ≤ st.canvas.height * n := Nat.le_mul_of_pos_right _ hn
          omega)
      exact ⟨r, _, hr⟩
  obtain ⟨r, f0, hr⟩ := key
  exact ⟨r, f0, fun fuel hfuel => pixelateRows_mono_le env _ _ _ _ hfuel hr⟩

/-! ### Stalled loops -/

/-- When adding the pixel size leaves the counter `j` unchanged and the loop
test holds at `j`, the inner loop never returns. -/
theorem pixelateRow_stall (env : Env) (xEnd i ps : JSNum) (q : ℚ)
    (hstall : JSNum.dadd (JSNum.fin q) ps = JSNum.fin q)
    (hlt : JSNum.lt (JSNum.fin q) xEnd = true) :
    ∀ (fuel : Nat) (st : State), q < st.canvas.width →
      pixelateRow env xEnd i ps fuel (JSNum.fin q) st = none := by
  intro fuel
  induction fuel with
  | zero => intro st _; rfl
  | succ n ih =>
    intro st hW
    rw [pixelateRow]
    have hc : (JSNum.lt (JSNum.fin q) xEnd && JSNum.lt (JSNum.fin q) (JSNum.ofNat st.canvas.width))
        = true := by
      simp [hlt, JSNum.ofNat, hW]
    rw [if_pos hc, hstall]
    exact ih _ (by simpa using hW)

/-- When the first row never returns, the outer loop never returns. -/
theorem pixelateRows_stall (env : Env) (x xEnd yEnd ps i : JSNum) (st : State)
    (hc : (JSNum.lt i yEnd && JSNum.lt i (JSNum.ofNat st.canvas.height)) = true)
    (hrow : ∀ fuel, pixelateRow env xEnd i ps fuel x st = none) :
    ∀ fuel, pixelateRows env x xEnd yEnd ps fuel i st = none := by
  intro fuel
  cases fuel with
  | zero => rfl
  | succ n =>
    rw [pixelateRows, if_pos hc, hrow n]

/-! ### The chaotic pixel size -/

theorem roundDouble_le_nat (n : ℕ) (hn : n ≤ 2 ^ 53) (q : ℚ) (hq0 : 0 < q) (h : q ≤ n) :
    roundDouble q ≤ n := by
  have hq : q ≠ 0 := hq0.ne'
  obtain ⟨e, h1, h2, hr⟩ := roundDouble_exists_binade q hq
  rw [abs_of_pos hq0] at h1 h2
  have hn53 : (n : ℚ) ≤ 2 ^ (53 : ℤ) := by
    have : ((n : ℕ) : ℚ) ≤ ((2 ^ 53 : ℕ) : ℚ) := by exact_mod_cast hn
    calc (n : ℚ) ≤ ((2 ^ 53 : ℕ) : ℚ) := this
      _ = (2 : ℚ) ^ (53 : ℤ) := by norm_num
  have he53 : e ≤ 53 := by
    by_contra hcon
    have h54 : (54 : ℤ) ≤ e := by omega
    have : (2 : ℚ) ^ (54 : ℤ) ≤ 2 ^ e := zpow_le_zpow_right₀ (by norm_num) h54
    have h3 : (2 : ℚ) ^ (54 : ℤ) ≤ 2 ^ (53 : ℤ) := this.trans (h1.trans (h.trans hn53))
    norm_num at h3
  by_cases hcase : e ≤ 52
  · rw [hr]
    obtain ⟨k, hk⟩ : ∃ k : ℕ, e - 52 = -(k : ℤ) := ⟨(52 - e).toNat, by omega⟩
    rw [zpow_sub_nat _ k hk, div_inv_eq_mul]
    have hk2 : (0 : ℚ) < (2 : ℚ) ^ k := pow_pos (by norm_num) _
    have hle : q * 2 ^ k ≤ (((n : ℤ) * 2 ^ k : ℤ) : ℚ) := by
      push_cast
      exact mul_le_mul_of_nonneg_right h hk2.le
    have hr2 : (roundHalfEven (q * 2 ^ k) : ℚ) ≤ (((n : ℤ) * 2 ^ k : ℤ) : ℚ) := by
      exact_mod_cast roundHalfEven_le _ _ hle
    push_cast at hr2
    rw [mul_inv_le_iff₀ hk2]
    exact hr2
  · have he : e = 53 := by omega
    subst he
    have hqn : q = n := le_antisymm h (hn53.trans h1)
    rw [hqn, roundDouble_natCast n hn]

/-- A double below 1 is at most `1 - 2^-53`. -/
theorem double_lt_one (r : ℚ) (hd : roundDouble r = r) (h1 : r < 1) :
    r ≤ 1 - 1 / 2 ^ 53 := by
  by_cases hhalf : r < 1 / 2
  · have : (1 : ℚ) / 2 ≤ 1 - 1 / 2 ^ 53 := by norm_num
    linarith
  · have hr0 : 0 < r := by
      have : (0 : ℚ) < 1 / 2 := by norm_num
      linarith [not_lt.mp hhalf]
    have hb := roundDouble_of_binade r hr0.ne' (-1) (by
      rw [abs_of_pos hr0]
      have : (2 : ℚ) ^ (-1 : ℤ) = 1 / 2 := by norm_num
      rw [this]
      exact not_lt.mp hhalf) (by
      rw [abs_of_pos hr0]
      simpa using h1)
    rw [hd] at hb
    have hu : (2 : ℚ) ^ ((-1 : ℤ) - 52) = 1 / 2 ^ 53 := by norm_num
    rw [hu] at hb
    have hm : (roundHalfEven (r / (1 / 2 ^ 53)) : ℚ) = r * 2 ^ 53 := by
      have h2 : (0 : ℚ) < 2 ^ 53 := by positivity
      field_simp at hb ⊢
      linarith
    have hlt : (roundHalfEven (r / (1 / 2 ^ 53)) : ℚ) < ((2 ^ 53 : ℤ) : ℚ) := by
      rw [hm]
      push_cast
      have h2 : (0 : ℚ) < 2 ^ 53 := by positivity
      nlinarith
    have hlt2 : roundHalfEven (r / (1 / 2 ^ 53)) < 2 ^ 53 := by exact_mod_cast hlt
    have hle : roundHalfEven (r / (1 / 2 ^ 53)) ≤ 2 ^ 53 - 1 := by omega
    have hle2 : (roundHalfEven (r / (1 / 2 ^ 53)) : ℚ) ≤ ((2 ^ 53 - 1 : ℤ) : ℚ) := by
      exact_mod_cast hle
    rw [hm] at hle2
    push_cast at hle2
    have h2 : (0 : ℚ) < 2 ^ 53 := by positivity
    have h3 : r ≤ 9007199254740991 / 2 ^ 53 := by
      rw [le_div_iff₀ h2]
      exact hle2
    have h4 : (9007199254740991 : ℚ) / 2 ^ 53 = 1 - 1 / 2 ^ 53 := by norm_num
    rw [← h4]
    exact h3

theorem roundDouble_mul50_lt (r : ℚ) (h0 : 0 ≤ r) (hr : r ≤ 1 - 1 / 2 ^ 53) :
    roundDouble (r * 50) < 50 := by
  by_cases h32 : r * 50 < 32
  · by_cases hz : r * 50 = 0
    · rw [hz, roundDouble_zero]; norm_num
    · have hpos : 0 < r * 50 := lt_of_le_of_ne (by positivity) (Ne.symm hz)
      have := roundDouble_le_nat 32 (by norm_num) (r * 50) hpos (by push_cast; linarith)
      push_cast at this
      linarith
  · have hge : (32 : ℚ) ≤ r * 50 := not_lt.mp h32
    have hpos : 0 < r * 50 := by linarith
    have hb := roundDouble_of_binade (r * 50) hpos.ne' 5 (by
      rw [abs_of_pos hpos]; norm_num; linarith) (by
      rw [abs_of_pos hpos]; norm_num; linarith)
    rw [hb]
    have hu : (2 : ℚ) ^ ((5 : ℤ) - 52) = 1 / 2 ^ 47 := by norm_num
    rw [hu]
    have hle : roundHalfEven (r * 50 / (1 / 2 ^ 47)) ≤ 50 * 2 ^ 47 - 1 := by
      apply roundHalfEven_le_of_lt_half
      push_cast
      rw [div_div_eq_mul_div, div_one]
      have h2 : (0 : ℚ) < 2 ^ 47 := by positivity
      have : r * 50 * 2 ^ 47 ≤ (1 - 1 / 2 ^ 53) * 50 * 2 ^ 47 := by
        apply mul_le_mul_of_nonneg_right _ h2.le
        linarith
      have h3 : ((1 : ℚ) - 1 / 2 ^ 53) * 50 * 2 ^ 47 < 50 * 2 ^ 47 - 1 + 1 / 2 := by norm_num
      linarith
    have hle2 : (roundHalfEven (r * 50 / (1 / 2 ^ 47)) : ℚ) ≤ 7036874417766399 := by
      have h5 : (roundHalfEven (r * 50 / (1 / 2 ^ 47)) : ℚ) ≤ ((50 * 2 ^ 47 - 1 : ℤ) : ℚ) := by
        exact_mod_cast hle
      norm_num at h5
      exact h5
    have h2 : (0 : ℚ) < 1 / 2 ^ 47 := by positivity
    have : (roundHalfEven (r * 50 / (1 / 2 ^ 47)) : ℚ) * (1 / 2 ^ 47)
        ≤ 7036874417766399 * (1 / 2 ^ 47) := mul_le_mul_of_nonneg_right hle2 h2.le
    have h3 : (7036874417766399 : ℚ) * (1 / 2 ^ 47) < 50 := by norm_num
    linarith

theorem chaoticPixelSize_range (r : ℚ) (h0 : 0 ≤ r) (h1 : r < 1)
    (hd : roundDouble r = r) : 10 ≤ chaoticPixelSize r ∧ chaoticPixelSize r ≤ 59 := by
  have a : (0 : ℤ) ≤ ⌊roundDouble (r * 50)⌋ :=
    Int.floor_nonneg.mpr (roundDouble_nonneg _ (by positivity))
  have b : ⌊roundDouble (r * 50)⌋ < 50 := by
    rw [Int.floor_lt]
    push_cast
    exact roundDouble_mul50_lt r h0 (double_lt_one r hd h1)
  unfold chaoticPixelSize
  omega

/-! ### The policies -/

theorem foldlM_guard {α β : Type} (g : β → Bool) (f : α → β → Option α) :
    ∀ (l : List β) (a : α),
      l.foldlM (fun a b => if g b then f a b else some a) a = (l.filter g).foldlM f a := by
  intro l
  induction l with
  | nil => intro a; rfl
  | cons b l ih =>
    intro a
    by_cases hb : g b = true
    · simp only [List.foldlM_cons, hb, if_true, List.filter_cons_of_pos]
      cases f a b with
      | none => rfl
      | some a1 => exact ih a1
    · have hb2 : g b = false := by simpa using hb
      simp only [List.foldlM_cons, hb2, List.filter_cons, Bool.false_eq_true, if_false]
      exact ih a

theorem bounds1D_iff (W : Nat) (a b : JSNum) :
    (JSNum.ge a (JSNum.fin 0) = true ∧ JSNum.gt b (JSNum.fin 0) = true ∧
      JSNum.le (JSNum.add a b) (JSNum.ofNat W) = true) ↔
      ∃ x w : ℚ, a = JSNum.fin x ∧ b = JSNum.fin w ∧ 0 ≤ x ∧ 0 < w ∧ x + w ≤ W := by
  cases a <;> cases b <;>
    simp [JSNum.ge, JSNum.gt, JSNum.le, JSNum.lt, JSNum.add, JSNum.ofNat]

theorem refinedBounds_iff (W H : Nat) (r : Region) :
    refinedBounds W H r = true ↔
      ∃ x y w h : ℚ, r = ⟨JSNum.fin x, JSNum.fin y, JSNum.fin w, JSNum.fin h⟩ ∧
        0 ≤ x ∧ 0 ≤ y ∧ 0 < w ∧ 0 < h ∧ x + w ≤ W ∧ y + h ≤ H := by
  rcases r with ⟨x, y, w, h⟩
  simp only [refinedBounds, Bool.and_eq_true]
  constructor
  · rintro ⟨⟨⟨⟨⟨hx, hy⟩, hw⟩, hh⟩, hxw⟩, hyh⟩
    obtain ⟨x, w, rfl, rfl, h1, h2, h3⟩ := (bounds1D_iff W x w).mp ⟨hx, hw, hxw⟩
    obtain ⟨y, h, rfl, rfl, h4, h5, h6⟩ := (bounds1D_iff H y h).mp ⟨hy, hh, hyh⟩
    exact ⟨x, y, w, h, rfl, h1, h4, h2, h5, h3, h6⟩
  · rintro ⟨x, y, w, h, heq, h1, h4, h2, h5, h3, h6⟩
    cases heq
    obtain ⟨a1, a2, a3⟩ := (bounds1D_iff W _ _).mpr ⟨x, w, rfl, rfl, h1, h2, h3⟩
    obtain ⟨b1, b2, b3⟩ := (bounds1D_iff H _ _).mpr ⟨y, h, rfl, rfl, h4, h5, h6⟩
    exact ⟨⟨⟨⟨⟨a1, b1⟩, a2⟩, b2⟩, a3⟩, b3⟩

/-- The emitting block of either policy, when it returns, counts one more
detection and appends the outline of the region followed by cells only. -/
theorem refinedEmit_returned (env : Env) (fuel : Nat) (p : Predictions) (W H : Nat)
    (acc r : State × Nat) (i : Nat) (h : refinedEmit env fuel p W H acc i = some r) :
    r.2 = acc.2 + 1 ∧ ∃ L, Extends acc.1 r.1 (outlineOf (regionAt p W H i) :: L) ∧
      ∀ op ∈ L, op.isFillRect = true := by
  simp only [refinedEmit] at h
  cases hpix : pixelateFace env fuel (regionAt p W H i).x (regionAt p W H i).y
      (regionAt p W H i).width (regionAt p W H i).height (JSNum.fin refinedPixelSize)
      (drawBoundingBox (regionAt p W H i).x (regionAt p W H i).y (regionAt p W H i).width
        (regionAt p W H i).height acc.1) with
  | none => rw [hpix] at h; simp at h
  | some st =>
    rw [hpix] at h
    simp only [Option.some.injEq] at h
    subst h
    obtain ⟨L, hL, hfill⟩ := pixelateFace_frame env fuel _ _ _ _ _ _ _ hpix
    exact ⟨rfl, L, (drawBoundingBox_extends _ _ _ _ acc.1).trans hL, hfill⟩

theorem chaoticEmit_returned (env : Env) (fuel : Nat) (p : Predictions) (W H : Nat)
    (acc r : State × Nat) (i : Nat) (h : chaoticEmit env fuel p W H acc i = some r) :
    r.2 = acc.2 + 1 ∧ ∃ L, Extends acc.1 r.1 (outlineOf (regionAt p W H i) :: L) ∧
      ∀ op ∈ L, op.isFillRect = true := by
  simp only [chaoticEmit] at h
  cases hpix : pixelateFace env fuel (regionAt p W H i).x (regionAt p W H i).y
      (regionAt p W H i).width (regionAt p W H i).height
      (JSNum.fin (chaoticPixelSize (env.random (drawBoundingBox (regionAt p W H i).x
        (regionAt p W H i).y (regionAt p W H i).width (regionAt p W H i).height acc.1).draws)))
      { drawBoundingBox (regionAt p W H i).x (regionAt p W H i).y (regionAt p W H i).width
          (regionAt p W H i).height acc.1 with
        draws := (drawBoundingBox (regionAt p W H i).x (regionAt p W H i).y
          (regionAt p W H i).width (regionAt p W H i).height acc.1).draws + 1 } with
  | none => rw [hpix] at h; simp at h
  | some st =>
    rw [hpix] at h
    simp only [Option.some.injEq] at h
    subst h
    obtain ⟨L, hL, hfill⟩ := pixelateFace_frame env fuel _ _ _ _ _ _ _ hpix
    have h1 := drawBoundingBox_extends (regionAt p W H i).x (regionAt p W H i).y
      (regionAt p W H i).width (regionAt p W H i).height acc.1
    have h2 : Extends acc.1 { drawBoundingBox (regionAt p W H i).x (regionAt p W H i).y
        (regionAt p W H i).width (regionAt p W H i).height acc.1 with
      draws := (drawBoundingBox (regionAt p W H i).x (regionAt p W H i).y
        (regionAt p W H i).width (regionAt p W H i).height acc.1).draws + 1 }
        [outlineOf (regionAt p W H i)] := ⟨h1.1, h1.2⟩
    exact ⟨rfl, L, h2.trans hL, hfill⟩

theorem refinedEmit_terminates (env : Env) (p : Predictions) (W H : Nat) (acc : State × Nat)
    (i : Nat) (hacc : refinedAccepts p W H i = true) :
    ∃ r f0, ∀ fuel, f0 ≤ fuel → refinedEmit env fuel p W H acc i = some r := by
  simp only [refinedAccepts, Bool.and_eq_true] at hacc
  obtain ⟨x, y, w, h, hreg, hx, hy, -⟩ := (refinedBounds_iff _ _ _).mp hacc.2
  have hps : (JSNum.fin ((refinedPixelSize : ℤ) : ℚ)) = JSNum.fin ((50 : ℕ) : ℚ) := by
    norm_num [refinedPixelSize]
  obtain ⟨r, f0, hr⟩ := pixelateFace_terminates env (regionAt p W H i).x (regionAt p W H i).y
    (regionAt p W H i).width (regionAt p W H i).height
    (by rw [hreg]; intro q hq; cases hq; exact hx)
    (by rw [hreg]; intro q hq; cases hq; exact hy)
    50 (by norm_num) (by norm_num)
    (drawBoundingBox (regionAt p W H i).x (regionAt p W H i).y (regionAt p W H i).width
      (regionAt p W H i).height acc.1)
  refine ⟨(r, acc.2 + 1), f0, ?_⟩
  intro fuel hfuel
  simp only [refinedEmit, hps, hr fuel hfuel]

theorem chaoticEmit_terminates (env : Env) (p : Predictions) (W H : Nat) (acc : State × Nat)
    (i : Nat)
    (hx : ∀ q, (regionAt p W H i).x = JSNum.fin q → 0 ≤ q)
    (hy : ∀ q, (regionAt p W H i).y = JSNum.fin q → 0 ≤ q) :
    ∃ r f0, ∀ fuel, f0 ≤ fuel → chaoticEmit env fuel p W H acc i = some r := by
  obtain ⟨hlo, hhi⟩ := chaoticPixelSize_range
    (env.random (drawBoundingBox (regionAt p W H i).x (regionAt p W H i).y
      (regionAt p W H i).width (regionAt p W H i).height acc.1).draws)
    (env.random_range _).1 (env.random_range _).2 (env.random_double _)
  obtain ⟨n, hn⟩ : ∃ n : ℕ, chaoticPixelSize (env.random (drawBoundingBox (regionAt p W H i).x
      (regionAt p W H i).y (regionAt p W H i).width (regionAt p W H i).height acc.1).draws)
      = (n : ℤ) := ⟨_, (Int.toNat_of_nonneg (by omega)).symm⟩
  have hn1 : 0 < n := by omega
  have hn2 : n ≤ 2 ^ 32 := by
    have : n ≤ 59 := by omega
    exact this.trans (by norm_num)
  obtain ⟨r, f0, hr⟩ := pixelateFace_terminates env (regionAt p W H i).x (regionAt p W H i).y
    (regionAt p W H i).width (regionAt p W H i).height hx hy n hn1 hn2
    { drawBoundingBox (regionAt p W H i).x (regionAt p W H i).y (regionAt p W H i).width
        (regionAt p W H i).height acc.1 with
      draws := (drawBoundingBox (regionAt p W H i).x (regionAt p W H i).y
        (regionAt p W H i).width (regionAt p W H i).height acc.1).draws + 1 }
  refine ⟨(r, acc.2 + 1), f0, ?_⟩
  intro fuel hfuel
  simp only [chaoticEmit, hn, Int.cast_natCast, hr fuel hfuel]

/-- A fold of steps that each return for every large enough fuel returns
for every large enough fuel. -/
theorem foldlM_terminates {α : Type} (f : Nat → α → Nat → Option α) :
    ∀ (l : List Nat) (a : α),
      (∀ (b : α) (i : Nat), i ∈ l → ∃ r f0, ∀ fuel, f0 ≤ fuel → f fuel b i = some r) →
      ∃ r f0, ∀ fuel, f0 ≤ fuel → l.foldlM (f fuel) a = some r := by
  intro l
  induction l with
  | nil => intro a _; exact ⟨a, 0, fun fuel _ => rfl⟩
  | cons i l ih =>
    intro a hf
    obtain ⟨r1, f1, h1⟩ := hf a i (List.mem_cons_self _ _)
    obtain ⟨r2, f2, h2⟩ := ih r1 (fun b k hk => hf b k (List.mem_cons_of_mem _ hk))
    refine ⟨r2, max f1 f2, fun fuel hfuel => ?_⟩
    rw [List.foldlM_cons, h1 fuel (le_trans (le_max_left _ _) hfuel)]
    exact h2 fuel (le_trans (le_max_right _ _) hfuel)

/-- A fold of emitting blocks that returns has counted the listed indices
and appended their outlines, in order, each followed by cells only. -/
theorem foldlM_emit_returned (f : State × Nat → Nat → Option (State × Nat)) (reg : Nat → Region)
    (hf : ∀ (acc r : State × Nat) (i : Nat), f acc i = some r →
      r.2 = acc.2 + 1 ∧ ∃ L, Extends acc.1 r.1 (outlineOf (reg i) :: L) ∧
        ∀ op ∈ L, op.isFillRect = true) :
    ∀ (l : List Nat) (acc r : State × Nat), l.foldlM f acc = some r →
      r.2 = acc.2 + l.length ∧
      ∃ T, Extends acc.1 r.1 T ∧
        T.filter (fun op => !op.isFillRect) = l.map (fun i => outlineOf (reg i)) := by
  intro l
  induction l with
  | nil =>
    intro acc r h
    simp only [List.foldlM_nil] at h
    cases h
    exact ⟨rfl, [], Extends.refl _, rfl⟩
  | cons i l ih =>
    intro acc r h
    rw [List.foldlM_cons] at h
    cases hstep : f acc i with
    | none => rw [hstep] at h; simp at h
    | some r1 =>
      rw [hstep] at h
      obtain ⟨hc1, L1, hL1, hfill1⟩ := hf acc r1 i hstep
      obtain ⟨hc2, T2, hT2, hfilter2⟩ := ih r1 r h
      refine ⟨?_, outlineOf (reg i) :: L1 ++ T2, hL1.trans hT2, ?_⟩
      · rw [hc2, hc1, List.length_cons]; omega
      · have hL1f : L1.filter (fun op => !op.isFillRect) = [] := by
          rw [List.filter_eq_nil_iff]
          intro op hop
          simp [hfill1 op hop]
        have hout : List.filter (fun op : DrawOp => !op.isFillRect) (outlineOf (reg i) :: L1)
            = outlineOf (reg i) :: List.filter (fun op : DrawOp => !op.isFillRect) L1 := by
          rw [List.filter_cons]; rfl
        rw [List.filter_append, hout, hL1f, hfilter2]
        rfl

theorem processPredictionsRefined_eq (env : Env) (fuel : Nat) (p : Predictions) (st : State) :
    processPredictionsRefined env fuel p st =
      ((List.range p.scores.shape1).filter
        (refinedAccepts p st.canvas.width st.canvas.height)).foldlM
        (refinedEmit env fuel p st.canvas.width st.canvas.height) (st, 0) :=
  foldlM_guard _ _ _ _

theorem processPredictionsChaotic_eq (env : Env) (fuel : Nat) (p : Predictions) (st : State) :
    processPredictionsChaotic env fuel p st =
      ((List.range p.scores.shape1).filter
        (chaoticAccepts p st.canvas.width st.canvas.height)).foldlM
        (chaoticEmit env fuel p st.canvas.width st.canvas.height) (st, 0) :=
  foldlM_guard _ _ _ _

theorem processPredictionsRefined_returned (env : Env) (fuel : Nat) (p : Predictions)
    (st : State) (r : State × Nat) (h : processPredictionsRefined env fuel p st = some r) :
    r.2 = ((List.range p.scores.shape1).filter
        (refinedAccepts p st.canvas.width st.canvas.height)).length ∧
    ∃ T, Extends st r.1 T ∧ T.filter (fun op => !op.isFillRect) =
      ((List.range p.scores.shape1).filter
        (refinedAccepts p st.canvas.width st.canvas.height)).map
        (fun i => outlineOf (regionAt p st.canvas.width st.canvas.height i)) := by
  rw [processPredictionsRefined_eq] at h
  have := foldlM_emit_returned (refinedEmit env fuel p st.canvas.width st.canvas.height)
    (regionAt p st.canvas.width st.canvas.height)
    (fun acc r i => refinedEmit_returned env fuel p _ _ acc r i) _ (st, 0) r h
  simpa using this

theorem processPredictionsChaotic_returned (env : Env) (fuel : Nat) (p : Predictions)
    (st : State) (r : State × Nat) (h : processPredictionsChaotic env fuel p st = some r) :
    r.2 = ((List.range p.scores.shape1).filter
        (chaoticAccepts p st.canvas.width st.canvas.height)).length ∧
    ∃ T, Extends st r.1 T ∧ T.filter (fun op => !op.isFillRect) =
      ((List.range p.scores.shape1).filter
        (chaoticAccepts p st.canvas.width st.canvas.height)).map
        (fun i => outlineOf (regionAt p st.canvas.width st.canvas.height i)) := by
  rw [processPredictionsChaotic_eq] at h
  have := foldlM_emit_returned (chaoticEmit env fuel p st.canvas.width st.canvas.height)
    (regionAt p st.canvas.width st.canvas.height)
    (fun acc r i => chaoticEmit_returned env fuel p _ _ acc r i) _ (st, 0) r h
  simpa using this

theorem processPredictionsRefined_spec (env : Env) (p : Predictions) (st : State) :
    ∃ r f0,
      (∀ fuel, f0 ≤ fuel → processPredictionsRefined env fuel p st = some (r,
        ((List.range p.scores.shape1).filter
          (refinedAccepts p st.canvas.width st.canvas.height)).length)) ∧
      ∃ T, Extends st r T ∧ T.filter (fun op => !op.isFillRect) =
        ((List.range p.scores.shape1).filter
          (refinedAccepts p st.canvas.width st.canvas.height)).map
          (fun i => outlineOf (regionAt p st.canvas.width st.canvas.height i)) := by
  obtain ⟨r, f0, h⟩ := foldlM_terminates
    (fun fuel => refinedEmit env fuel p st.canvas.width st.canvas.height)
    ((List.range p.scores.shape1).filter (refinedAccepts p st.canvas.width st.canvas.height))
    (st, 0)
    (fun b i hi => refinedEmit_terminates env p _ _ b i (List.mem_filter.mp hi).2)
  have h0 : processPredictionsRefined env f0 p st = some r := by
    rw [processPredictionsRefined_eq]; exact h f0 le_rfl
  obtain ⟨hcount, T, hT, hfilter⟩ := processPredictionsRefined_returned env f0 p st r h0
  refine ⟨r.1, f0, ?_, T, hT, hfilter⟩
  intro fuel hfuel
  rw [processPredictionsRefined_eq, h fuel hfuel, ← hcount]

/-- The chaotic run returns for every large enough fuel when every
surviving region starts at non-negative (or non-finite) coordinates. -/
theorem processPredictionsChaotic_spec (env : Env) (p : Predictions) (st : State)
    (hpos : ∀ i ∈ (List.range p.scores.shape1).filter
        (chaoticAccepts p st.canvas.width st.canvas.height),
      (∀ q, (regionAt p st.canvas.width st.canvas.height i).x = JSNum.fin q → 0 ≤ q) ∧
      (∀ q, (regionAt p st.canvas.width st.canvas.height i).y = JSNum.fin q → 0 ≤ q)) :
    ∃ r f0,
      (∀ fuel, f0 ≤ fuel → processPredictionsChaotic env fuel p st = some (r,
        ((List.range p.scores.shape1).filter
          (chaoticAccepts p st.canvas.width st.canvas.height)).length)) ∧
      ∃ T, Extends st r T ∧ T.filter (fun op => !op.isFillRect) =
        ((List.range p.scores.shape1).filter
          (chaoticAccepts p st.canvas.width st.canvas.height)).map
          (fun i => outlineOf (regionAt p st.canvas.width st.canvas.height i)) := by
  obtain ⟨r, f0, h⟩ := foldlM_terminates
    (fun fuel => chaoticEmit env fuel p st.canvas.width st.canvas.height)
    ((List.range p.scores.shape1).filter (chaoticAccepts p st.canvas.width st.canvas.height))
    (st, 0)
    (fun b i hi => chaoticEmit_terminates env p _ _ b i (hpos i hi).1 (hpos i hi).2)
  have h0 : processPredictionsChaotic env f0 p st = some r := by
    rw [processPredictionsChaotic_eq]; exact h f0 le_rfl
  obtain ⟨hcount, T, hT, hfilter⟩ := processPredictionsChaotic_returned env f0 p st r h0
  refine ⟨r.1, f0, ?_, T, hT, hfilter⟩
  intro fuel hfuel
  rw [processPredictionsChaotic_eq, h fuel hfuel, ← hcount]

/-! ### Geometry of the cells for integer arguments -/

@[simp] theorem covers_fillRect (c : Style) (x y w h px py : ℚ) :
    (DrawOp.fillRect c (JSNum.fin x) (JSNum.fin y) (JSNum.fin w) (JSNum.fin h)).covers px py
      = decide (x ≤ px ∧ px < x + w ∧ y ≤ py ∧ py < y + h) := rfl

theorem roundDouble_natAdd (a b : ℕ) (h : a + b ≤ 2 ^ 53) :
    roundDouble ((a : ℚ) + b) = ((a + b : ℕ) : ℚ) := by
  have := roundDouble_natCast (a + b) h
  push_cast at this ⊢
  exact this

theorem roundDouble_natSub (a b : ℕ) (ha : a ≤ 2 ^ 53) (hb : b ≤ 2 ^ 53) :
    roundDouble ((a : ℚ) - b) = (a : ℚ) - b := by
  have habs : |(a : ℤ) - b| ≤ 2 ^ 53 := by
    rw [abs_le]
    constructor <;> omega
  have := roundDouble_intCast ((a : ℤ) - b) habs
  push_cast at this
  exact this

theorem pixelateRow_cells (env : Env) (xe i p : ℕ) (hp : 0 < p) (hp2 : p ≤ 2 ^ 32) :
    ∀ (fuel : Nat) (q : ℕ) (st r : State), i < st.canvas.height →
      pixelateRow env (JSNum.fin xe) (JSNum.fin i) (JSNum.fin p) fuel (JSNum.fin q) st = some r →
      ∃ L, Extends st r L ∧
        (∀ op ∈ L, ∃ (c : Style) (j : ℕ), op = DrawOp.fillRect c (JSNum.fin j) (JSNum.fin i)
            (JSNum.fin (min (p : ℚ) (st.canvas.width - j)))
            (JSNum.fin (min (p : ℚ) (st.canvas.height - i))) ∧
            (q : ℚ) ≤ j ∧ (j : ℚ) < xe ∧ (j : ℚ) < st.canvas.width) ∧
        L.Pairwise DrawOp.disjointFrom ∧
        (∀ px py : ℚ, (q : ℚ) ≤ px → px < xe → px < st.canvas.width → (i : ℚ) ≤ py →
          py < i + min (p : ℚ) (st.canvas.height - i) → ∃ op ∈ L, op.covers px py = true) := by
  have h32 : (2 : Nat) ^ 32 = 4294967296 := by norm_num
  have h53 : (2 : Nat) ^ 53 = 9007199254740992 := by norm_num
  intro fuel
  induction fuel with
  | zero => intro q st r _ h; simp [pixelateRow] at h
  | succ n ih =>
    intro q st r hi h
    rw [pixelateRow] at h
    split_ifs at h with hc
    · simp only [JSNum.ofNat, JSNum.lt_fin, Bool.and_eq_true, decide_eq_true_eq] at hc
      obtain ⟨hqx, hqW⟩ := hc
      have hqW2 : q < st.canvas.width := by exact_mod_cast hqW
      have hWlt := st.canvas.width_lt
      have hHlt := st.canvas.height_lt
      rw [JSNum.dadd_fin, roundDouble_natAdd q p (by omega)] at h
      obtain ⟨L, hL, hcells, hpair, hcover⟩ := ih _ _ _ (by simpa using hi) h
      simp only [fillCell_width, fillCell_height] at hcells hcover
      have hext := fillCell_extends env (JSNum.fin i) (JSNum.fin q) (JSNum.fin p) st
      simp only [JSNum.ofNat, JSNum.dsub_fin, JSNum.min_fin] at hext
      rw [roundDouble_natSub _ q (by omega) (by omega),
        roundDouble_natSub _ i (by omega) (by omega)] at hext
      refine ⟨_, hext.trans hL, ?_, ?_, ?_⟩
      · intro op hop
        rcases List.mem_append.mp hop with h1 | h1
        · rw [List.mem_singleton] at h1
          exact ⟨_, q, h1, le_rfl, hqx, hqW⟩
        · obtain ⟨c, j, hj, h2, h3, h4⟩ := hcells op h1
          refine ⟨c, j, hj, ?_, h3, h4⟩
          push_cast at h2
          have : (0 : ℚ) ≤ p := by positivity
          linarith
      · rw [List.singleton_append, List.pairwise_cons]
        refine ⟨?_, hpair⟩
        intro b hb px py hcov
        obtain ⟨c, j, hj, h2, h3, h4⟩ := hcells b hb
        rw [hj] at hcov
        simp only [covers_fillRect, decide_eq_true_eq] at hcov
        obtain ⟨⟨_, ha, _, _⟩, ⟨hb1, _, _, _⟩⟩ := hcov
        have := min_le_left (p : ℚ) ((st.canvas.width : ℚ) - q)
        push_cast at h2
        linarith
      · intro px py h1 h2 h3 h4 h5
        by_cases hlt : px < q + p
        · refine ⟨_, List.mem_append_left _ (List.mem_singleton_self _), ?_⟩
          simp only [covers_fillRect, decide_eq_true_eq]
          refine ⟨h1, ?_, h4, h5⟩
          rw [← min_add_add_left]
          exact lt_min hlt (by linarith)
        · obtain ⟨op, hop, hcov⟩ := hcover px py (by push_cast; exact not_lt.mp hlt) h2 h3 h4 h5
          exact ⟨op, List.mem_append_right _ hop, hcov⟩
    · cases h
      refine ⟨[], Extends.refl st, by simp, List.Pairwise.nil, ?_⟩
      intro px py h1 h2 h3 _ _
      exfalso
      apply hc
      simp only [JSNum.ofNat, JSNum.lt_fin, Bool.and_eq_true, decide_eq_true_eq]
      exact ⟨by linarith, by linarith⟩

theorem pixelateRows_cells (env : Env) (x xe ye p : ℕ) (hp : 0 < p) (hp2 : p ≤ 2 ^ 32) :
    ∀ (fuel : Nat) (q : ℕ) (st r : State),
      pixelateRows env (JSNum.fin x) (JSNum.fin xe) (JSNum.fin ye) (JSNum.fin p) fuel
        (JSNum.fin q) st = some r →
      ∃ L, Extends st r L ∧
        (∀ op ∈ L, ∃ (c : Style) (j i : ℕ), op = DrawOp.fillRect c (JSNum.fin j) (JSNum.fin i)
            (JSNum.fin (min (p : ℚ) (st.canvas.width - j)))
            (JSNum.fin (min (p : ℚ) (st.canvas.height - i))) ∧
            (x : ℚ) ≤ j ∧ (j : ℚ) < xe ∧ (j : ℚ) < st.canvas.width ∧
            (q : ℚ) ≤ i ∧ (i : ℚ) < ye ∧ (i : ℚ) < st.canvas.height) ∧
        L.Pairwise DrawOp.disjointFrom ∧
        (∀ px py : ℚ, (x : ℚ) ≤ px → px < xe → px < st.canvas.width → (q : ℚ) ≤ py →
          py < ye → py < st.canvas.height → ∃ op ∈ L, op.covers px py = true) := by
  have h32 : (2 : Nat) ^ 32 = 4294967296 := by norm_num
  have h53 : (2 : Nat) ^ 53 = 9007199254740992 := by norm_num
  intro fuel
  induction fuel with
  | zero => intro q st r h; simp [pixelateRows] at h
  | succ n ih =>
    intro q st r h
    rw [pixelateRows] at h
    split_ifs at h with hc
    · simp only [JSNum.ofNat, JSNum.lt_fin, Bool.and_eq_true, decide_eq_true_eq] at hc
      obtain ⟨hqy, hqH⟩ := hc
      have hqH2 : q < st.canvas.height := by exact_mod_cast hqH
      have hHlt := st.canvas.height_lt
      cases hrow : pixelateRow env (JSNum.fin xe) (JSNum.fin q) (JSNum.fin p) n (JSNum.fin x) st with
      | none => simp [hrow] at h
      | some st1 =>
        rw [hrow, JSNum.dadd_fin, roundDouble_natAdd q p (by omega)] at h
        obtain ⟨L1, hL1, hcells1, hpair1, hcover1⟩ :=
          pixelateRow_cells env xe q p hp hp2 _ _ _ _ hqH2 hrow
        obtain ⟨L2, hL2, hcells2, hpair2, hcover2⟩ := ih _ _ _ h
        rw [hL1.width, hL1.height] at hcells2 hcover2
        refine ⟨L1 ++ L2, hL1.trans hL2, ?_, ?_, ?_⟩
        · intro op hop
          rcases List.mem_append.mp hop with h1 | h1
          · obtain ⟨c, j, hj, h2, h3, h4⟩ := hcells1 op h1
            exact ⟨c, j, q, hj, h2, h3, h4, le_rfl, hqy, hqH⟩
          · obtain ⟨c, j, i, hj, h2, h3, h4, h5, h6, h7⟩ := hcells2 op h1
            refine ⟨c, j, i, hj, h2, h3, h4, ?_, h6, h7⟩
            push_cast at h5
            have : (0 : ℚ) ≤ p := by positivity
            linarith
        · rw [List.pairwise_append]
          refine ⟨hpair1, hpair2, ?_⟩
          intro a ha b hb px py hcov
          obtain ⟨c, j, hj, _, _, _⟩ := hcells1 a ha
          obtain ⟨c2, j2, i2, hj2, _, _, _, h5, _, _⟩ := hcells2 b hb
          rw [hj, hj2] at hcov
          simp only [covers_fillRect, decide_eq_true_eq] at hcov
          obtain ⟨⟨_, _, _, ha4⟩, ⟨_, _, hb3, _⟩⟩ := hcov
          have := min_le_left (p : ℚ) ((st.canvas.height : ℚ) - q)
          push_cast at h5
          linarith
        · intro px py h1 h2 h3 h4 h5 h6
          by_cases hlt : py < q + p
          · obtain ⟨op, hop, hcov⟩ := hcover1 px py h1 h2 h3 h4 (by
              rw [← min_add_add_left]
              exact lt_min hlt (by linarith))
            exact ⟨op, List.mem_append_left _ hop, hcov⟩
          · obtain ⟨op, hop, hcov⟩ := hcover2 px py h1 h2 h3
              (by push_cast; exact not_lt.mp hlt) h5 h6
            exact ⟨op, List.mem_append_right _ hop, hcov⟩
    · cases h
      refine ⟨[], Extends.refl st, by simp, List.Pairwise.nil, ?_⟩
      intro px py _ _ _ h4 h5 h6
      exfalso
      apply hc
      simp only [JSNum.ofNat, JSNum.lt_fin, Bool.and_eq_true, decide_eq_true_eq]
      exact ⟨by linarith, by linarith⟩

theorem countP_eq_one_of_pairwise {α : Type} (P : α → Bool) :
    ∀ (L : List α), L.Pairwise (fun a b => ¬ (P a = true ∧ P b = true)) →
      (∃ a ∈ L, P a = true) → L.countP P = 1 := by
  intro L
  induction L with
  | nil => intro _ h; simp at h
  | cons a L ih =>
    intro hpair hex
    rw [List.pairwise_cons] at hpair
    by_cases ha : P a = true
    · have hzero : L.countP P = 0 := by
        rw [List.countP_eq_zero]
        intro b hb hPb
        exact hpair.1 b hb ⟨ha, hPb⟩
      rw [List.countP_cons_of_pos _ _ ha, hzero]
    · rw [List.countP_cons_of_neg _ _ ha]
      apply ih hpair.2
      obtain ⟨b, hb, hPb⟩ := hex
      rcases List.mem_cons.mp hb with h1 | h1
      · subst h1; exact absurd hPb ha
      · exact ⟨b, h1, hPb⟩

/-- For a region and a pixel size given by natural numbers below `2^32`,
`pixelateFace` returns and the cells it appends have integer corners inside
the region and the exact sizes; they are pairwise disjoint and cover the
part of the region on the surface. -/
theorem pixelateFace_cells (env : Env) (st : State) (x y width height pixelSize : ℕ)
    (hp : 0 < pixelSize) (hp2 : pixelSize < 2 ^ 32) (hx : x < 2 ^ 32) (hy : y < 2 ^ 32)
    (hw : width < 2 ^ 32) (hh : height < 2 ^ 32) :
    ∃ r L f0,
      (∀ fuel, f0 ≤ fuel → pixelateFace env fuel (JSNum.fin x) (JSNum.fin y) (JSNum.fin width)
        (JSNum.fin height) (JSNum.fin pixelSize) st = some r) ∧
      Extends st r L ∧
      (∀ op ∈ L, ∃ (c : Style) (j i : ℕ), op = DrawOp.fillRect c (JSNum.fin j) (JSNum.fin i)
          (JSNum.fin (min (pixelSize : ℚ) (st.canvas.width - j)))
          (JSNum.fin (min (pixelSize : ℚ) (st.canvas.height - i))) ∧
          (x : ℚ) ≤ j ∧ (j : ℚ) < x + width ∧ (j : ℚ) < st.canvas.width ∧
          (y : ℚ) ≤ i ∧ (i : ℚ) < y + height ∧ (i : ℚ) < st.canvas.height) ∧
      L.Pairwise DrawOp.disjointFrom ∧
      (∀ px py : ℚ, (x : ℚ) ≤ px → px < x + width → px < st.canvas.width → (y : ℚ) ≤ py →
        py < y + height → py < st.canvas.height → ∃ op ∈ L, op.covers px py = true) := by
  have h32 : (2 : Nat) ^ 32 = 4294967296 := by norm_num
  have h53 : (2 : Nat) ^ 53 = 9007199254740992 := by norm_num
  obtain ⟨r, f0, hr⟩ := pixelateFace_terminates env (JSNum.fin x) (JSNum.fin y)
    (JSNum.fin width) (JSNum.fin height)
    (by intro q hq; cases hq; positivity) (by intro q hq; cases hq; positivity)
    pixelSize hp hp2.le st
  have h0 := hr f0 le_rfl
  simp only [pixelateFace, JSNum.dadd_fin] at h0
  rw [roundDouble_natAdd x width (by omega), roundDouble_natAdd y height (by omega)] at h0
  obtain ⟨L, hL, hcells, hpair, hcover⟩ :=
    pixelateRows_cells env x (x + width) (y + height) pixelSize hp hp2.le _ _ _ _ h0
  push_cast at hcells hcover
  exact ⟨r, L, f0, hr, hL, hcells, hpair, hcover⟩

/-! ## Pixelation grid -/

theorem roundDouble_one_add_tiny : roundDouble (1 + 1 / 2 ^ 60) = 1 := by
  have hb := roundDouble_of_binade (1 + 1 / 2 ^ 60) (by norm_num) 0
    (by rw [abs_of_pos (by norm_num)]; norm_num)
    (by rw [abs_of_pos (by norm_num)]; norm_num)
  rw [hb]
  have hr : roundHalfEven ((1 + 1 / 2 ^ 60) / 2 ^ ((0 : ℤ) - 52)) = 2 ^ 52 := by
    apply roundHalfEven_eq_of_abs_lt
    rw [abs_lt]
    constructor <;> norm_num
  rw [hr]
  norm_num

theorem roundDouble_tiny_add (n : ℚ) (z : ℤ) (e : ℤ) (hn : 0 < n)
    (h1 : (2 : ℚ) ^ e ≤ 1 / 2 ^ 50 + n) (h2 : 1 / 2 ^ 50 + n < (2 : ℚ) ^ (e + 1))
    (hz : |(1 / 2 ^ 50 + n) / 2 ^ (e - 52) - z| < 1 / 2)
    (hv : (z : ℚ) * 2 ^ (e - 52) = n) : roundDouble (1 / 2 ^ 50 + n) = n := by
  have hpos : (0 : ℚ) < 1 / 2 ^ 50 + n := by positivity
  rw [roundDouble_of_binade _ hpos.ne' e (by rwa [abs_of_pos hpos]) (by rwa [abs_of_pos hpos]),
    roundHalfEven_eq_of_abs_lt _ z hz, hv]

theorem roundDouble_tiny_50 : roundDouble (1 / 2 ^ 50 + 50) = 50 :=
  roundDouble_tiny_add 50 (50 * 2 ^ 47) 5 (by norm_num) (by norm_num) (by norm_num)
    (by rw [abs_lt]; constructor <;> norm_num) (by norm_num)

theorem roundDouble_tiny_60 : roundDouble (1 / 2 ^ 50 + 60) = 60 :=
  roundDouble_tiny_add 60 (60 * 2 ^ 47) 5 (by norm_num) (by norm_num) (by norm_num)
    (by rw [abs_lt]; constructor <;> norm_num) (by norm_num)

theorem roundDouble_200_sub_tiny : roundDouble (200 - 1 / 2 ^ 50) = 200 := by
  have hpos : (0 : ℚ) < 200 - 1 / 2 ^ 50 := by norm_num
  rw [roundDouble_of_binade _ hpos.ne' 7 (by rw [abs_of_pos hpos]; norm_num)
      (by rw [abs_of_pos hpos]; norm_num),
    roundHalfEven_eq_of_abs_lt _ (200 * 2 ^ 45) (by rw [abs_lt]; constructor <;> norm_num)]
  norm_num

theorem overlap_row :
    pixelateRow envZero (JSNum.fin 60) (JSNum.fin 0) (JSNum.fin 50) 5 (JSNum.fin (1 / 2 ^ 50))
      (blank 200 100) =
    some { blank 200 100 with
      draws := 6
      canvas := { (blank 200 100).canvas with
        ops := [DrawOp.fillRect (Style.rgb 0 0 0) (JSNum.fin (1 / 2 ^ 50)) (JSNum.fin 0)
              (JSNum.fin 50) (JSNum.fin 50),
            DrawOp.fillRect (Style.rgb 0 0 0) (JSNum.fin 50) (JSNum.fin 0) (JSNum.fin 50)
              (JSNum.fin 50)] } } := by
  have h50 : roundDouble 50 = 50 := by simpa using roundDouble_natCast 50 (by norm_num)
  have h100 : roundDouble 100 = 100 := by simpa using roundDouble_natCast 100 (by norm_num)
  have h150 : roundDouble 150 = 150 := by simpa using roundDouble_natCast 150 (by norm_num)
  have hb : roundDouble (56294995342131201 / 1125899906842624) = 50 := by
    have h := roundDouble_tiny_50
    norm_num at h
    exact h
  have hd : roundDouble (225179981368524799 / 1125899906842624) = 200 := by
    have h := roundDouble_200_sub_tiny
    norm_num at h
    exact h
  norm_num [pixelateRow, fillCell, blank, envZero, JSNum.ofNat,
      randomChannel, h50, h100, h150, hb, hd]

theorem overlap_run :
    (pixelateFace envZero 6 (JSNum.fin (1 / 2 ^ 50)) (JSNum.fin 0) (JSNum.fin 60)
        (JSNum.fin 10) (JSNum.fin 50) (blank 200 100)).map (fun r => r.canvas.ops) =
      some [DrawOp.fillRect (Style.rgb 0 0 0) (JSNum.fin (1 / 2 ^ 50)) (JSNum.fin 0)
              (JSNum.fin 50) (JSNum.fin 50),
            DrawOp.fillRect (Style.rgb 0 0 0) (JSNum.fin 50) (JSNum.fin 0) (JSNum.fin 50)
              (JSNum.fin 50)] := by
  have h10 : roundDouble 10 = 10 := by simpa using roundDouble_natCast 10 (by norm_num)
  have h50 : roundDouble 50 = 50 := by simpa using roundDouble_natCast 50 (by norm_num)
  have hxe : JSNum.dadd (JSNum.fin (1 / 2 ^ 50)) (JSNum.fin 60) = JSNum.fin 60 := by
    rw [JSNum.dadd_fin, roundDouble_tiny_60]
  have hye : JSNum.dadd (JSNum.fin 0) (JSNum.fin 10) = JSNum.fin 10 := by
    rw [JSNum.dadd_fin]; norm_num [h10]
  have hi : JSNum.dadd (JSNum.fin 0) (JSNum.fin 50) = JSNum.fin 50 := by
    rw [JSNum.dadd_fin]; norm_num [h50]
  unfold pixelateFace
  rw [hxe, hye, pixelateRows]
  have hc1 : (JSNum.lt (JSNum.fin 0) (JSNum.fin 10) &&
      JSNum.lt (JSNum.fin 0) (JSNum.ofNat (blank 200 100).canvas.height)) = true := by
    norm_num [JSNum.ofNat, blank]
  rw [if_pos hc1, overlap_row]
  simp only [hi]
  rw [pixelateRows]
  norm_num [JSNum.ofNat]

theorem overlap_count :
    List.countP (fun op => op.covers 50 0)
      [DrawOp.fillRect (Style.rgb 0 0 0) (JSNum.fin (1 / 2 ^ 50)) (JSNum.fin 0)
          (JSNum.fin 50) (JSNum.fin 50),
        DrawOp.fillRect (Style.rgb 0 0 0) (JSNum.fin 50) (JSNum.fin 0) (JSNum.fin 50)
          (JSNum.fin 50)] = 2 := by
  rw [List.countP_cons_of_pos, List.countP_cons_of_pos]
  · rfl
  · rw [covers_fillRect]; norm_num
  · rw [covers_fillRect]; norm_num

theorem tiny_step_never_returns (fuel : Nat) :
    pixelateFace envZero fuel (JSNum.fin 1) (JSNum.fin 0) (JSNum.fin 10) (JSNum.fin 10)
      (JSNum.fin (1 / 2 ^ 60)) (blank 200 100) = none := by
  have hstall : JSNum.dadd (JSNum.fin 1) (JSNum.fin (1 / 2 ^ 60)) = JSNum.fin 1 := by
    rw [JSNum.dadd_fin, roundDouble_one_add_tiny]
  have h10 : roundDouble 10 = 10 := by simpa using roundDouble_natCast 10 (by norm_num)
  have h11 : roundDouble 11 = 11 := by simpa using roundDouble_natCast 11 (by norm_num)
  unfold pixelateFace
  apply pixelateRows_stall
  · norm_num [JSNum.ofNat, blank, h10]
  · intro f
    apply pixelateRow_stall _ _ _ _ 1 hstall
    · norm_num [h11]
    · norm_num [blank]

/-- C4, counterexample. (a) Region `(1, 0, 10, 10)` with the positive pixel
size `2^-60` on a 200 x 100 canvas: in double arithmetic `1 + 2^-60` is
`1`, so the column counter never advances; the script fills the cell at
`j = 1` again and again and `pixelateFace` never returns.  (b) Region
`(2^-50, 0, 60, 10)` with pixel size 50: `2^-50 + 50` is `50` in double
arithmetic, so the two cells filled are `[2^-50, 2^-50 + 50)` and
`[50, 100)` in `x`; they overlap, and the point `(50, 0)` of the region is
covered twice. -/
theorem grid_coverage_counterexample :
    ((0 : ℚ) < 1 / 2 ^ 60 ∧
      JSNum.dadd (JSNum.fin 1) (JSNum.fin (1 / 2 ^ 60)) = JSNum.fin 1 ∧
      ∀ fuel, pixelateFace envZero fuel (JSNum.fin 1) (JSNum.fin 0) (JSNum.fin 10)
        (JSNum.fin 10) (JSNum.fin (1 / 2 ^ 60)) (blank 200 100) = none) ∧
    ((pixelateFace envZero 6 (JSNum.fin (1 / 2 ^ 50)) (JSNum.fin 0) (JSNum.fin 60)
        (JSNum.fin 10) (JSNum.fin 50) (blank 200 100)).map (fun r => r.canvas.ops) =
      some [DrawOp.fillRect (Style.rgb 0 0 0) (JSNum.fin (1 / 2 ^ 50)) (JSNum.fin 0)
              (JSNum.fin 50) (JSNum.fin 50),
            DrawOp.fillRect (Style.rgb 0 0 0) (JSNum.fin 50) (JSNum.fin 0) (JSNum.fin 50)
              (JSNum.fin 50)] ∧
      List.countP (fun op => op.covers 50 0)
        [DrawOp.fillRect (Style.rgb 0 0 0) (JSNum.fin (1 / 2 ^ 50)) (JSNum.fin 0)
            (JSNum.fin 50) (JSNum.fin 50),
          DrawOp.fillRect (Style.rgb 0 0 0) (JSNum.fin 50) (JSNum.fin 0) (JSNum.fin 50)
            (JSNum.fin 50)] = 2 ∧
      (1 / 2 ^ 50 : ℚ) ≤ 50 ∧ (50 : ℚ) < 1 / 2 ^ 50 + 60) :=
  ⟨⟨by norm_num, by rw [JSNum.dadd_fin, roundDouble_one_add_tiny], tiny_step_never_returns⟩,
    overlap_run, overlap_count, by norm_num, by norm_num⟩

/-- C4, amended. For every region whose `x`, `y`, `width`, `height` are
natural numbers below `2^32`, every integer `pixelSize` from 1 to below
`2^32` and every canvas, `pixelateFace` returns (for every large enough
fuel) and appends only cells `fillRect(j, i, min(pixelSize, maxWidth - j),
min(pixelSize, maxHeight - i))` of positive size with integer corners; the
cells are pairwise disjoint, and every point that lies in the region and on
the surface is covered by exactly one of them. -/
theorem pixelateFace_grid_coverage (env : Env) (st : State)
    (x y width height pixelSize : ℕ) (hp : 0 < pixelSize) (hp2 : pixelSize < 2 ^ 32)
    (hx : x < 2 ^ 32) (hy : y < 2 ^ 32) (hw : width < 2 ^ 32) (hh : height < 2 ^ 32) :
    ∃ r L f0,
      (∀ fuel, f0 ≤ fuel → pixelateFace env fuel (JSNum.fin x) (JSNum.fin y) (JSNum.fin width)
        (JSNum.fin height) (JSNum.fin pixelSize) st = some r) ∧
      Extends st r L ∧
      (∀ op ∈ L, ∃ (c : Style) (j i : ℕ), op = DrawOp.fillRect c (JSNum.fin j) (JSNum.fin i)
          (JSNum.fin (min (pixelSize : ℚ) (st.canvas.width - j)))
          (JSNum.fin (min (pixelSize : ℚ) (st.canvas.height - i))) ∧
          0 < min (pixelSize : ℚ) (st.canvas.width - j) ∧
          0 < min (pixelSize : ℚ) (st.canvas.height - i)) ∧
      L.Pairwise DrawOp.disjointFrom ∧
      (∀ px py : ℚ, (x : ℚ) ≤ px → px < x + width → (y : ℚ) ≤ py → py < y + height →
        0 ≤ px → px < st.canvas.width → 0 ≤ py → py < st.canvas.height →
        L.countP (fun op => op.covers px py) = 1) := by
  obtain ⟨r, L, f0, hr, hL, hcells, hpair, hcover⟩ :=
    pixelateFace_cells env st x y width height pixelSize hp hp2 hx hy hw hh
  have hpq : (0 : ℚ) < pixelSize := by exact_mod_cast hp
  refine ⟨r, L, f0, hr, hL, ?_, hpair, ?_⟩
  · intro op hop
    obtain ⟨c, j, i, hop, _, _, hj, _, _, hi⟩ := hcells op hop
    exact ⟨c, j, i, hop, lt_min hpq (by linarith), lt_min hpq (by linarith)⟩
  · intro px py h1 h2 h3 h4 _ h6 _ h8
    apply countP_eq_one_of_pairwise
    · exact hpair.imp (fun hab => hab px py)
    · exact hcover px py h1 h2 h6 h3 h4 h8

theorem pixelateFace_grid_coverage_witness :
    0 < 50 ∧ 50 < 2 ^ 32 ∧ 0 < 2 ^ 32 ∧ 60 < 2 ^ 32 ∧
    ∃ r L f0,
      (∀ fuel, f0 ≤ fuel → pixelateFace envZero fuel (JSNum.fin (0 : ℕ)) (JSNum.fin (0 : ℕ))
        (JSNum.fin (60 : ℕ)) (JSNum.fin (60 : ℕ)) (JSNum.fin (50 : ℕ)) (blank 200 100)
        = some r) ∧
      Extends (blank 200 100) r L ∧
      (∀ op ∈ L, ∃ (c : Style) (j i : ℕ), op = DrawOp.fillRect c (JSNum.fin j) (JSNum.fin i)
          (JSNum.fin (min ((50 : ℕ) : ℚ) ((blank 200 100).canvas.width - j)))
          (JSNum.fin (min ((50 : ℕ) : ℚ) ((blank 200 100).canvas.height - i))) ∧
          0 < min ((50 : ℕ) : ℚ) ((blank 200 100).canvas.width - j) ∧
          0 < min ((50 : ℕ) : ℚ) ((blank 200 100).canvas.height - i)) ∧
      L.Pairwise DrawOp.disjointFrom ∧
      (∀ px py : ℚ, ((0 : ℕ) : ℚ) ≤ px → px < (0 : ℕ) + (60 : ℕ) → ((0 : ℕ) : ℚ) ≤ py →
        py < (0 : ℕ) + (60 : ℕ) →
        0 ≤ px → px < (blank 200 100).canvas.width → 0 ≤ py →
        py < (blank 200 100).canvas.height →
        L.countP (fun op => op.covers px py) = 1) :=
  ⟨by norm_num, by norm_num, by norm_num, by norm_num,
    pixelateFace_grid_coverage envZero (blank 200 100) 0 0 60 60 50 (by norm_num) (by norm_num)
      (by norm_num) (by norm_num) (by norm_num) (by norm_num)⟩

/-- C5, counterexample. Region `(0, 0, 60, 60)` with `pixelSize = 50` on a
200 x 100 canvas: `pixelateFace` fills the cell `fillRect(50, 0, 50, 50)`,
whose right edge `100` lies beyond the right edge `60` of the region. -/
theorem cell_clipping_counterexample :
    (pixelateFace envZero 6 (JSNum.fin 0) (JSNum.fin 0) (JSNum.fin 60) (JSNum.fin 60)
        (JSNum.fin 50) (blank 200 100)).map (fun r => r.canvas.ops) =
      some [DrawOp.fillRect (Style.rgb 0 0 0) (JSNum.fin 0) (JSNum.fin 0) (JSNum.fin 50)
              (JSNum.fin 50),
            DrawOp.fillRect (Style.rgb 0 0 0) (JSNum.fin 50) (JSNum.fin 0) (JSNum.fin 50)
              (JSNum.fin 50),
            DrawOp.fillRect (Style.rgb 0 0 0) (JSNum.fin 0) (JSNum.fin 50) (JSNum.fin 50)
              (JSNum.fin 50),
            DrawOp.fillRect (Style.rgb 0 0 0) (JSNum.fin 50) (JSNum.fin 50) (JSNum.fin 50)
              (JSNum.fin 50)] ∧
      ¬ ((50 : ℚ) + 50 ≤ 0 + 60) := by
  have h50 : roundDouble 50 = 50 := by simpa using roundDouble_natCast 50 (by norm_num)
  have h60 : roundDouble 60 = 60 := by simpa using roundDouble_natCast 60 (by norm_num)
  have h100 : roundDouble 100 = 100 := by simpa using roundDouble_natCast 100 (by norm_num)
  have h150 : roundDouble 150 = 150 := by simpa using roundDouble_natCast 150 (by norm_num)
  have h200 : roundDouble 200 = 200 := by simpa using roundDouble_natCast 200 (by norm_num)
  refine ⟨?_, by norm_num⟩
  norm_num [pixelateFace, pixelateRows, pixelateRow, fillCell, blank, envZero, JSNum.ofNat,
    randomChannel, h50, h60, h100, h150, h200]

/-- C5, amended. For every region whose `x`, `y`, `width`, `height` are
natural numbers below `2^32`, every integer `pixelSize` from 1 to below
`2^32` and every canvas, `pixelateFace` returns and each cell it fills has
its corner `(j, i)` inside the region (`x <= j < x + width`,
`y <= i < y + height`) and on the surface (`0 <= j`, `0 <= i`), has the
positive size `cw = min(pixelSize, maxWidth - j)` by
`ch = min(pixelSize, maxHeight - i)`, ends at or before the canvas edges
(`j + cw <= maxWidth`, `i + ch <= maxHeight`), and passes the right and
bottom edges of the region by less than `pixelSize`.  Cells are clipped to
the surface only, not to the region. -/
theorem pixelateFace_cell_clipping (env : Env) (st : State)
    (x y width height pixelSize : ℕ) (hp : 0 < pixelSize) (hp2 : pixelSize < 2 ^ 32)
    (hx : x < 2 ^ 32) (hy : y < 2 ^ 32) (hw : width < 2 ^ 32) (hh : height < 2 ^ 32) :
    ∃ r L f0,
      (∀ fuel, f0 ≤ fuel → pixelateFace env fuel (JSNum.fin x) (JSNum.fin y) (JSNum.fin width)
        (JSNum.fin height) (JSNum.fin pixelSize) st = some r) ∧
      Extends st r L ∧
      ∀ op ∈ L, ∃ (c : Style) (j i : ℕ) (cw ch : ℚ),
        op = DrawOp.fillRect c (JSNum.fin j) (JSNum.fin i) (JSNum.fin cw) (JSNum.fin ch) ∧
        cw = min (pixelSize : ℚ) (st.canvas.width - j) ∧
        ch = min (pixelSize : ℚ) (st.canvas.height - i) ∧
        x ≤ j ∧ j < x + width ∧ y ≤ i ∧ i < y + height ∧
        0 < cw ∧ 0 < ch ∧ cw ≤ pixelSize ∧ ch ≤ pixelSize ∧
        j + cw ≤ st.canvas.width ∧ i + ch ≤ st.canvas.height ∧
        j + cw < x + width + pixelSize ∧ i + ch < y + height + pixelSize := by
  obtain ⟨r, L, f0, hr, hL, hcells, _, _⟩ :=
    pixelateFace_cells env st x y width height pixelSize hp hp2 hx hy hw hh
  have hpq : (0 : ℚ) < pixelSize := by exact_mod_cast hp
  refine ⟨r, L, f0, hr, hL, ?_⟩
  intro op hop
  obtain ⟨c, j, i, hop, h1, h2, h3, h4, h5, h6⟩ := hcells op hop
  have a1 := min_le_left (pixelSize : ℚ) ((st.canvas.width : ℚ) - j)
  have a2 := min_le_right (pixelSize : ℚ) ((st.canvas.width : ℚ) - j)
  have b1 := min_le_left (pixelSize : ℚ) ((st.canvas.height : ℚ) - i)
  have b2 := min_le_right (pixelSize : ℚ) ((st.canvas.height : ℚ) - i)
  refine ⟨c, j, i, _, _, hop, rfl, rfl, by exact_mod_cast h1, by exact_mod_cast h2,
    by exact_mod_cast h4, by exact_mod_cast h5, lt_min hpq (by linarith),
    lt_min hpq (by linarith), a1, b1, by linarith, by linarith, by linarith, by linarith⟩

theorem pixelateFace_cell_clipping_witness :
    0 < 50 ∧ 50 < 2 ^ 32 ∧ 0 < 2 ^ 32 ∧ 60 < 2 ^ 32 ∧
    ∃ r L f0,
      (∀ fuel, f0 ≤ fuel → pixelateFace envZero fuel (JSNum.fin (0 : ℕ)) (JSNum.fin (0 : ℕ))
        (JSNum.fin (60 : ℕ)) (JSNum.fin (60 : ℕ)) (JSNum.fin (50 : ℕ)) (blank 200 100)
        = some r) ∧
      Extends (blank 200 100) r L ∧
      ∀ op ∈ L, ∃ (c : Style) (j i : ℕ) (cw ch : ℚ),
        op = DrawOp.fillRect c (JSNum.fin j) (JSNum.fin i) (JSNum.fin cw) (JSNum.fin ch) ∧
        cw = min ((50 : ℕ) : ℚ) ((blank 200 100).canvas.width - j) ∧
        ch = min ((50 : ℕ) : ℚ) ((blank 200 100).canvas.height - i) ∧
        0 ≤ j ∧ j < 0 + 60 ∧ 0 ≤ i ∧ i < 0 + 60 ∧
        0 < cw ∧ 0 < ch ∧ cw ≤ (50 : ℕ) ∧ ch ≤ (50 : ℕ) ∧
        j + cw ≤ (blank 200 100).canvas.width ∧ i + ch ≤ (blank 200 100).canvas.height ∧
        j + cw < (0 : ℕ) + (60 : ℕ) + (50 : ℕ) ∧ i + ch < (0 : ℕ) + (60 : ℕ) + (50 : ℕ) :=
  ⟨by norm_num, by norm_num, by norm_num, by norm_num,
    pixelateFace_cell_clipping envZero (blank 200 100) 0 0 60 60 50 (by norm_num) (by norm_num)
      (by norm_num) (by norm_num) (by norm_num) (by norm_num)⟩

/-! ## Pixel sizes -/

/-- Integers up to `2^53` scaled by a power of two are doubles. -/
theorem roundDouble_dyadic (z : ℤ) (hz : |z| ≤ 2 ^ 53) (s : ℤ) :
    roundDouble ((z : ℚ) * 2 ^ s) = (z : ℚ) * 2 ^ s := by
  rw [roundDouble_mul_zpow, roundDouble_intCast z hz]

theorem drawBelow34_double : roundDouble drawBelow34 = drawBelow34 := by
  have h := roundDouble_dyadic 3062447746611937 (by norm_num) (-52)
  have e : ((3062447746611937 : ℤ) : ℚ) * 2 ^ (-52 : ℤ) = drawBelow34 := by
    norm_num [drawBelow34]
  rw [e] at h
  exact h

theorem drawBelow34_product : roundDouble (drawBelow34 * 50) = 34 := by
  have hpos : (0 : ℚ) < drawBelow34 * 50 := by norm_num [drawBelow34]
  have hb := roundDouble_of_binade (drawBelow34 * 50) hpos.ne' 5
    (by rw [abs_of_pos hpos]; norm_num [drawBelow34])
    (by rw [abs_of_pos hpos]; norm_num [drawBelow34])
  rw [hb]
  have hr : roundHalfEven (drawBelow34 * 50 / 2 ^ ((5 : ℤ) - 52)) = 34 * 2 ^ 47 := by
    apply roundHalfEven_eq_of_abs_lt
    rw [abs_lt]
    constructor <;> norm_num [drawBelow34]
  rw [hr]
  norm_num

/-- C6, counterexample. The double `r = 3062447746611937 / 2^52` lies in
`[33/50, 34/50)`, the interval the claim assigns to the pixel size 43, but
the double product `r * 50` is `34`, so the script passes the pixel size
44. -/
theorem pixel_size_interval_counterexample :
    roundDouble drawBelow34 = drawBelow34 ∧
    0 ≤ drawBelow34 ∧ drawBelow34 < 1 ∧
    (((43 : ℤ) : ℚ) - 10) / 50 ≤ drawBelow34 ∧
    drawBelow34 < (((43 : ℤ) : ℚ) - 10) / 50 + 1 / 50 ∧
    chaoticPixelSize drawBelow34 = 44 := by
  refine ⟨drawBelow34_double, by norm_num [drawBelow34], by norm_num [drawBelow34],
    by norm_num [drawBelow34], by norm_num [drawBelow34], ?_⟩
  unfold chaoticPixelSize
  rw [drawBelow34_product]
  norm_num

theorem chaoticPixelSize_surjective (k : ℤ) (hk1 : 10 ≤ k) (hk2 : k ≤ 59) :
    ∃ r : ℚ, 0 ≤ r ∧ r < 1 ∧ roundDouble r = r ∧ chaoticPixelSize r = k := by
  have hc1 : (64 * ((k : ℚ) - 10)) / 25 ≤ (⌈(64 * ((k : ℚ) - 10)) / 25⌉ : ℤ) := Int.le_ceil _
  have hc2 : ((⌈(64 * ((k : ℚ) - 10)) / 25⌉ : ℤ) : ℚ) < (64 * ((k : ℚ) - 10)) / 25 + 1 :=
    Int.ceil_lt_add_one _
  have hkq1 : (10 : ℚ) ≤ k := by exact_mod_cast hk1
  have hkq2 : (k : ℚ) ≤ 59 := by exact_mod_cast hk2
  generalize ⌈(64 * ((k : ℚ) - 10)) / 25⌉ = m at hc1 hc2
  have hm0 : (0 : ℚ) ≤ m := by
    have : (0 : ℚ) ≤ (64 * ((k : ℚ) - 10)) / 25 := by
      apply div_nonneg <;> linarith
    linarith
  have hm127 : (m : ℚ) < 127 := by
    have : (64 * ((k : ℚ) - 10)) / 25 ≤ 64 * 49 / 25 := by
      apply div_le_div_of_nonneg_right _ (by norm_num)
      linarith
    have h2 : (64 : ℚ) * 49 / 25 + 1 < 127 := by norm_num
    linarith
  have hm0z : (0 : ℤ) ≤ m := by exact_mod_cast hm0
  have hm127z : m < 127 := by exact_mod_cast hm127
  have e7 : (2 : ℚ) ^ (-7 : ℤ) = 1 / 128 := by norm_num
  have e6 : (2 : ℚ) ^ (-6 : ℤ) = 1 / 64 := by norm_num
  refine ⟨(m : ℚ) * 2 ^ (-7 : ℤ), ?_, ?_, ?_, ?_⟩
  · rw [e7]; linarith
  · rw [e7]; linarith
  · exact roundDouble_dyadic m (by rw [abs_of_nonneg hm0z]; omega) (-7)
  · have hprod : (m : ℚ) * 2 ^ (-7 : ℤ) * 50 = ((25 * m : ℤ) : ℚ) * 2 ^ (-6 : ℤ) := by
      rw [e7, e6]; push_cast; ring
    unfold chaoticPixelSize
    rw [hprod, roundDouble_dyadic (25 * m) (by rw [abs_of_nonneg (by omega)]; omega) (-6), e6]
    have hfloor : ⌊((25 * m : ℤ) : ℚ) * (1 / 64)⌋ = k - 10 := by
      rw [Int.floor_eq_iff]
      push_cast
      constructor
      · have := (div_le_iff₀ (by norm_num : (0 : ℚ) < 25)).mp hc1
        linarith
      · have h3 : (m : ℚ) * 25 < 64 * ((k : ℚ) - 10) + 25 := by
          have := (lt_div_iff₀ (by norm_num : (0 : ℚ) < 25)).mpr
            (show (m : ℚ) * 25 < (64 * ((k : ℚ) - 10)) + 25 by
              have h4 : (m : ℚ) < (64 * ((k : ℚ) - 10)) / 25 + 1 := hc2
              have h5 := (div_add_one (by norm_num : (25 : ℚ) ≠ 0) : (64 * ((k : ℚ) - 10)) / 25 + 1 = _)
              rw [h5] at h4
              exact (lt_div_iff₀ (by norm_num : (0 : ℚ) < 25)).mp h4)
          exact (lt_div_iff₀ (by norm_num : (0 : ℚ) < 25)).mp this
        linarith
    rw [hfloor]
    ring

/-- C6, amended. For a random draw `r`, a double with `0 <= r < 1`, the
chaotic pixel size `floor(r * 50) + 10` is an integer between 10 and 59; it
is `k` exactly when the double product `r * 50` lies in `[k - 10, k - 9)`;
every integer from 10 to 59 is produced by some double draw in `[0, 1)`.
The values are produced by intervals of `r` that are equal only up to the
rounding of the product.  The pixel size is positive in both policies (the
refined one uses the constant 50), also for every draw of the
environment. -/
theorem chaotic_pixel_size_range (r : ℚ) (h0 : 0 ≤ r) (h1 : r < 1)
    (hd : roundDouble r = r) :
    10 ≤ chaoticPixelSize r ∧ chaoticPixelSize r ≤ 59 ∧
    (∀ k : ℤ, chaoticPixelSize r = k ↔
      (k : ℚ) - 10 ≤ roundDouble (r * 50) ∧ roundDouble (r * 50) < (k : ℚ) - 9) ∧
    (∀ k : ℤ, 10 ≤ k → k ≤ 59 →
      ∃ r2 : ℚ, 0 ≤ r2 ∧ r2 < 1 ∧ roundDouble r2 = r2 ∧ chaoticPixelSize r2 = k) ∧
    0 < chaoticPixelSize r ∧ refinedPixelSize = 50 ∧ 0 < refinedPixelSize ∧
    (∀ (env : Env) (k : Nat), 10 ≤ chaoticPixelSize (env.random k) ∧
      chaoticPixelSize (env.random k) ≤ 59) := by
  have hrange := chaoticPixelSize_range r h0 h1 hd
  refine ⟨hrange.1, hrange.2, ?_, chaoticPixelSize_surjective, by omega, rfl, by decide, ?_⟩
  · intro k
    unfold chaoticPixelSize
    rw [show (⌊roundDouble (r * 50)⌋ + 10 = k) ↔ ⌊roundDouble (r * 50)⌋ = k - 10 by omega,
      Int.floor_eq_iff]
    push_cast
    constructor
    · rintro ⟨a, b⟩; exact ⟨a, by linarith⟩
    · rintro ⟨a, b⟩; exact ⟨a, by linarith⟩
  · intro env k
    exact chaoticPixelSize_range _ (env.random_range k).1 (env.random_range k).2
      (env.random_double k)

theorem chaotic_pixel_size_range_witness :
    0 ≤ drawBelow34 ∧ drawBelow34 < 1 ∧ roundDouble drawBelow34 = drawBelow34 ∧
    (10 ≤ chaoticPixelSize drawBelow34 ∧ chaoticPixelSize drawBelow34 ≤ 59 ∧
    (∀ k : ℤ, chaoticPixelSize drawBelow34 = k ↔
      (k : ℚ) - 10 ≤ roundDouble (drawBelow34 * 50) ∧
      roundDouble (drawBelow34 * 50) < (k : ℚ) - 9) ∧
    (∀ k : ℤ, 10 ≤ k → k ≤ 59 →
      ∃ r2 : ℚ, 0 ≤ r2 ∧ r2 < 1 ∧ roundDouble r2 = r2 ∧ chaoticPixelSize r2 = k) ∧
    0 < chaoticPixelSize drawBelow34 ∧ refinedPixelSize = 50 ∧ 0 < refinedPixelSize ∧
    (∀ (env : Env) (k : Nat), 10 ≤ chaoticPixelSize (env.random k) ∧
      chaoticPixelSize (env.random k) ≤ 59)) :=
  have h0 : 0 ≤ drawBelow34 := by norm_num [drawBelow34]
  have h1 : drawBelow34 < 1 := by norm_num [drawBelow34]
  ⟨h0, h1, drawBelow34_double, chaotic_pixel_size_range drawBelow34 h0 h1 drawBelow34_double⟩

/-! ## The two policies -/

theorem mem_survivors (accepts : Nat → Bool) (n i : Nat) :
    i ∈ survivors accepts n ↔ i < n ∧ accepts i = true := by
  simp [survivors]

theorem gt_iff_not_le (a : JSNum) (t : ℚ) (h : JSNum.gt a (JSNum.fin t) = true) :
    JSNum.le a (JSNum.fin t) = false := by
  cases a <;> simp [JSNum.gt, JSNum.lt, JSNum.le] at h ⊢
  exact h

/-- C1 (refined postcondition). For every predictions input, canvas and
random stream, `processPredictionsRefined` returns (for every large enough
fuel) the number of surviving detections; the outlines it draws are, in
order, those of the regions of the surviving detections, every other
command it appends being a pixelation cell; and every surviving detection
`i` has `scores[i] > 0.99` (so not `<= 0.99`) and a region of four finite
numbers with `x >= 0`, `y >= 0`, `width > 0`, `height > 0`,
`x + width <= W`, `y + height <= H`. -/
theorem refined_postcondition (env : Env) (p : Predictions) (st : State) :
    (∃ r f0,
      (∀ fuel, f0 ≤ fuel → processPredictionsRefined env fuel p st = some (r,
        (survivors (refinedAccepts p st.canvas.width st.canvas.height)
          p.scores.shape1).length)) ∧
      ∃ T, Extends st r T ∧ T.filter (fun op => !op.isFillRect) =
        (survivors (refinedAccepts p st.canvas.width st.canvas.height) p.scores.shape1).map
          (fun i => outlineOf (regionAt p st.canvas.width st.canvas.height i))) ∧
    ∀ i ∈ survivors (refinedAccepts p st.canvas.width st.canvas.height) p.scores.shape1,
      i < p.scores.shape1 ∧
      JSNum.gt (scoreAt p i) (JSNum.fin (99 / 100)) = true ∧
      JSNum.le (scoreAt p i) (JSNum.fin (99 / 100)) = false ∧
      ∃ x y width height : ℚ,
        regionAt p st.canvas.width st.canvas.height i =
          ⟨JSNum.fin x, JSNum.fin y, JSNum.fin width, JSNum.fin height⟩ ∧
        0 ≤ x ∧ 0 ≤ y ∧ 0 < width ∧ 0 < height ∧
        x + width ≤ st.canvas.width ∧ y + height ≤ st.canvas.height := by
  refine ⟨processPredictionsRefined_spec env p st, ?_⟩
  intro i hi
  rw [mem_survivors] at hi
  obtain ⟨hlt, hacc⟩ := hi
  simp only [refinedAccepts, Bool.and_eq_true] at hacc
  exact ⟨hlt, hacc.1, gt_iff_not_le _ _ hacc.1, (refinedBounds_iff _ _ _).mp hacc.2⟩

/-- C2 (chaotic postcondition). For every predictions input, canvas and
random stream, and for every fuel, `processPredictionsChaotic` performs its
emitting block (outline, pixelate, count) for the surviving detections
only, in order; every surviving detection `i` has `scores[i] > 0.7` (so not
`<= 0.7`), `width > 10` and `height > 10` (so neither `width <= 10` nor
`height <= 10`); whenever the run returns, the outlines drawn are those of
the survivors and every other appended command is a pixelation cell; and
the run does return, for every large enough fuel, when every surviving
region starts at non-negative (or non-finite) coordinates. -/
theorem chaotic_postcondition (env : Env) (p : Predictions) (st : State) :
    (∀ fuel, processPredictionsChaotic env fuel p st =
      (survivors (chaoticAccepts p st.canvas.width st.canvas.height) p.scores.shape1).foldlM
        (chaoticEmit env fuel p st.canvas.width st.canvas.height) (st, 0)) ∧
    (∀ i ∈ survivors (chaoticAccepts p st.canvas.width st.canvas.height) p.scores.shape1,
      i < p.scores.shape1 ∧
      JSNum.gt (scoreAt p i) (JSNum.fin (7 / 10)) = true ∧
      JSNum.le (scoreAt p i) (JSNum.fin (7 / 10)) = false ∧
      JSNum.gt (regionAt p st.canvas.width st.canvas.height i).width (JSNum.fin 10) = true ∧
      JSNum.gt (regionAt p st.canvas.width st.canvas.height i).height (JSNum.fin 10) = true ∧
      JSNum.le (regionAt p st.canvas.width st.canvas.height i).width (JSNum.fin 10) = false ∧
      JSNum.le (regionAt p st.canvas.width st.canvas.height i).height (JSNum.fin 10) = false) ∧
    (∀ fuel r n, processPredictionsChaotic env fuel p st = some (r, n) →
      n = (survivors (chaoticAccepts p st.canvas.width st.canvas.height)
        p.scores.shape1).length ∧
      ∃ T, Extends st r T ∧ T.filter (fun op => !op.isFillRect) =
        (survivors (chaoticAccepts p st.canvas.width st.canvas.height) p.scores.shape1).map
          (fun i => outlineOf (regionAt p st.canvas.width st.canvas.height i))) ∧
    ((∀ i ∈ survivors (chaoticAccepts p st.canvas.width st.canvas.height) p.scores.shape1,
        (∀ q, (regionAt p st.canvas.width st.canvas.height i).x = JSNum.fin q → 0 ≤ q) ∧
        (∀ q, (regionAt p st.canvas.width st.canvas.height i).y = JSNum.fin q → 0 ≤ q)) →
      ∃ r f0, ∀ fuel, f0 ≤ fuel → processPredictionsChaotic env fuel p st = some (r,
        (survivors (chaoticAccepts p st.canvas.width st.canvas.height)
          p.scores.shape1).length)) := by
  refine ⟨fun fuel => processPredictionsChaotic_eq env fuel p st, ?_, ?_, ?_⟩
  · intro i hi
    rw [mem_survivors] at hi
    obtain ⟨hlt, hacc⟩ := hi
    simp only [chaoticAccepts, chaoticBounds, Bool.and_eq_true] at hacc
    exact ⟨hlt, hacc.1, gt_iff_not_le _ _ hacc.1, hacc.2.1, hacc.2.2,
      gt_iff_not_le _ _ hacc.2.1, gt_iff_not_le _ _ hacc.2.2⟩
  · intro fuel r n h
    exact processPredictionsChaotic_returned env fuel p st (r, n) h
  · intro hpos
    obtain ⟨r, f0, h, _⟩ := processPredictionsChaotic_spec env p st hpos
    exact ⟨r, f0, h⟩

theorem threeDetections_nonneg :
    ∀ i ∈ survivors (chaoticAccepts threeDetections (blank 200 100).canvas.width
        (blank 200 100).canvas.height) threeDetections.scores.shape1,
      (∀ q, (regionAt threeDetections (blank 200 100).canvas.width
        (blank 200 100).canvas.height i).x = JSNum.fin q → 0 ≤ q) ∧
      (∀ q, (regionAt threeDetections (blank 200 100).canvas.width
        (blank 200 100).canvas.height i).y = JSNum.fin q → 0 ≤ q) := by
  intro i hi
  rw [mem_survivors] at hi
  have hi3 : i < 3 := by simpa [threeDetections, mkPredictions] using hi.1
  interval_cases i <;>
    simp [regionAt, threeDetections, mkPredictions, boxSlice, blank, JSNum.ofNat]

theorem chaotic_postcondition_witness :
    (∀ i ∈ survivors (chaoticAccepts threeDetections (blank 200 100).canvas.width
        (blank 200 100).canvas.height) threeDetections.scores.shape1,
      (∀ q, (regionAt threeDetections (blank 200 100).canvas.width
        (blank 200 100).canvas.height i).x = JSNum.fin q → 0 ≤ q) ∧
      (∀ q, (regionAt threeDetections (blank 200 100).canvas.width
        (blank 200 100).canvas.height i).y = JSNum.fin q → 0 ≤ q)) ∧
    ∃ r f0, ∀ fuel, f0 ≤ fuel →
      processPredictionsChaotic envZero fuel threeDetections (blank 200 100) = some (r,
        (survivors (chaoticAccepts threeDetections (blank 200 100).canvas.width
          (blank 200 100).canvas.height) threeDetections.scores.shape1).length) :=
  ⟨threeDetections_nonneg,
    (chaotic_postcondition envZero threeDetections (blank 200 100)).2.2.2
      threeDetections_nonneg⟩

theorem survivors_length_le (accepts : Nat → Bool) (n : Nat) :
    (survivors accepts n).length ≤ n := by
  unfold survivors
  exact (List.length_filter_le _ _).trans (by simp)

theorem threeDetections_survivors :
    survivors (refinedAccepts threeDetections 200 100) 3 = [0, 1] := by
  simp [survivors, List.range, List.range.loop, refinedAccepts, threeDetections, mkPredictions,
    scoreAt, regionAt, boxSlice, refinedBounds, JSNum.gt, JSNum.ge, JSNum.ofNat,
    List.filter_cons]
  norm_num

theorem farLeft_accepts : chaoticAccepts farLeftDetection 200 100 0 = true := by
  simp [chaoticAccepts, farLeftDetection, mkPredictions, scoreAt, regionAt, boxSlice,
    chaoticBounds, JSNum.gt, JSNum.ofNat]
  norm_num

theorem roundDouble_farLeft :
    roundDouble (-(14551915 * 2 ^ 36) * 200 + 10) = -(14551915 * 2 ^ 36) * 200 := by
  have hneg : (-(14551915 * 2 ^ 36) * 200 + 10 : ℚ) < 0 := by norm_num
  have hb := roundDouble_of_binade (-(14551915 * 2 ^ 36) * 200 + 10) hneg.ne 67
    (by rw [abs_of_neg hneg]; norm_num)
    (by rw [abs_of_neg hneg]; norm_num)
  rw [hb]
  have hr : roundHalfEven ((-(14551915 * 2 ^ 36) * 200 + 10) / 2 ^ ((67 : ℤ) - 52))
      = -(2910383000 * 2 ^ 21) := by
    apply roundHalfEven_eq_of_abs_lt
    rw [abs_lt]
    constructor <;> norm_num
  rw [hr]
  norm_num

theorem farLeft_never_returns (fuel : Nat) :
    processPredictionsChaotic envZero fuel farLeftDetection (blank 200 100) = none := by
  have h10 : roundDouble 10 = 10 := by simpa using roundDouble_natCast 10 (by norm_num)
  have h100 : roundDouble 100 = 100 := by simpa using roundDouble_natCast 100 (by norm_num)
  have h200 : roundDouble 200 = 200 := by simpa using roundDouble_natCast 200 (by norm_num)
  have hps : chaoticPixelSize 0 = 10 := by
    simp [chaoticPixelSize, roundDouble_zero]
  have hpix : ∀ (f : Nat) (st : State), st.canvas.width = 200 → st.canvas.height = 100 →
      pixelateFace envZero f (JSNum.fin (-(14551915 * 2 ^ 36) * 200)) (JSNum.fin 0)
        (JSNum.fin ((0 - -(14551915 * 2 ^ 36)) * 200)) (JSNum.fin 100) (JSNum.fin 10) st
        = none := by
    intro f st hW hH
    unfold pixelateFace
    apply pixelateRows_stall
    · norm_num [JSNum.ofNat, hH, h100]
    · intro g
      apply pixelateRow_stall
      · rw [JSNum.dadd_fin, roundDouble_farLeft]
      · rw [JSNum.dadd_fin]
        have : (-(14551915 * 2 ^ 36) * 200 + (0 - -(14551915 * 2 ^ 36)) * 200 : ℚ) = 0 := by
          ring
        rw [this, roundDouble_zero]
        norm_num
      · rw [hW]; norm_num
  rw [processPredictionsChaotic_eq]
  have hs : (List.range farLeftDetection.scores.shape1).filter
      (chaoticAccepts farLeftDetection (blank 200 100).canvas.width
        (blank 200 100).canvas.height) = [0] := by
    have h := farLeft_accepts
    simp [farLeftDetection, mkPredictions, List.range, List.range.loop, blank] at h ⊢
    simp [List.filter_cons, farLeftDetection, mkPredictions, h]
  rw [hs]
  simp only [List.foldlM_cons, List.foldlM_nil, chaoticEmit]
  have hreg : regionAt farLeftDetection (blank 200 100).canvas.width
      (blank 200 100).canvas.height 0 =
      ⟨JSNum.fin (-(14551915 * 2 ^ 36) * 200), JSNum.fin 0,
        JSNum.fin ((0 - -(14551915 * 2 ^ 36)) * 200), JSNum.fin 100⟩ := by
    simp [regionAt, farLeftDetection, mkPredictions, boxSlice, blank, JSNum.ofNat]
  rw [hreg]
  have hdraw : envZero.random (drawBoundingBox (JSNum.fin (-(14551915 * 2 ^ 36) * 200))
      (JSNum.fin 0) (JSNum.fin ((0 - -(14551915 * 2 ^ 36)) * 200)) (JSNum.fin 100)
      (blank 200 100)).draws = 0 := rfl
  simp only [hdraw, hps]
  have := hpix fuel { drawBoundingBox (JSNum.fin (-(14551915 * 2 ^ 36) * 200))
      (JSNum.fin 0) (JSNum.fin ((0 - -(14551915 * 2 ^ 36)) * 200)) (JSNum.fin 100)
      (blank 200 100) with draws := (drawBoundingBox (JSNum.fin (-(14551915 * 2 ^ 36) * 200))
      (JSNum.fin 0) (JSNum.fin ((0 - -(14551915 * 2 ^ 36)) * 200)) (JSNum.fin 100)
      (blank 200 100)).draws + 1 } rfl rfl
  norm_num at this ⊢
  rw [this]

/-- C3, counterexample. One detection with score 0.9 and box
`[0, float32(-1e18), 1, 0]` on a 200 x 100 canvas: the chaotic policy
accepts it, but in double arithmetic adding the pixel size 10 to the column
counter `x = x1 * 200` leaves it unchanged, so `pixelateFace` never returns
and the run returns no `faceCount`. -/
theorem chaotic_never_returns :
    chaoticAccepts farLeftDetection 200 100 0 = true ∧
    JSNum.dadd (JSNum.fin (-(14551915 * 2 ^ 36) * 200)) (JSNum.fin 10)
      = JSNum.fin (-(14551915 * 2 ^ 36) * 200) ∧
    ∀ fuel, processPredictionsChaotic envZero fuel farLeftDetection (blank 200 100) = none :=
  ⟨farLeft_accepts, by rw [JSNum.dadd_fin, roundDouble_farLeft], farLeft_never_returns⟩

/-- C3, amended. Under either policy, for every predictions input with
`N = scores.shape[1]` detections, the run performs the accepted block
(outline, pixelate, count) for exactly the detections that pass the score
test and the geometric test of the policy, in increasing index order, and
there are at most `N` of them.  The refined run returns, for every large
enough fuel, with `faceCount` equal to their number, the outlines drawn
being those of their regions in order.  The chaotic run, whenever it
returns, returns their number with the same outlines, and it does return
when every surviving region starts at non-negative (or non-finite)
coordinates.  On scores `[0.995, 0.999, 0.5]` and a 200 x 100 surface with
the first two boxes inside it, the refined survivors are the indices 0 and
1, the count is 2 and the caption is `DETECTED 2 FACE(S)`. -/
theorem no_silent_drops (env : Env) (p : Predictions) (st : State) :
    ((∀ fuel, processPredictionsRefined env fuel p st =
        (survivors (refinedAccepts p st.canvas.width st.canvas.height) p.scores.shape1).foldlM
          (refinedEmit env fuel p st.canvas.width st.canvas.height) (st, 0)) ∧
      (∃ r f0,
        (∀ fuel, f0 ≤ fuel → processPredictionsRefined env fuel p st = some (r,
          (survivors (refinedAccepts p st.canvas.width st.canvas.height)
            p.scores.shape1).length)) ∧
        ∃ T, Extends st r T ∧ T.filter (fun op => !op.isFillRect) =
          (survivors (refinedAccepts p st.canvas.width st.canvas.height) p.scores.shape1).map
            (fun i => outlineOf (regionAt p st.canvas.width st.canvas.height i))) ∧
      (survivors (refinedAccepts p st.canvas.width st.canvas.height) p.scores.shape1).Sublist
        (List.range p.scores.shape1) ∧
      (∀ i, i ∈ survivors (refinedAccepts p st.canvas.width st.canvas.height) p.scores.shape1 ↔
        i < p.scores.shape1 ∧ refinedAccepts p st.canvas.width st.canvas.height i = true) ∧
      (survivors (refinedAccepts p st.canvas.width st.canvas.height) p.scores.shape1).length
        ≤ p.scores.shape1) ∧
    ((∀ fuel, processPredictionsChaotic env fuel p st =
        (survivors (chaoticAccepts p st.canvas.width st.canvas.height) p.scores.shape1).foldlM
          (chaoticEmit env fuel p st.canvas.width st.canvas.height) (st, 0)) ∧
      (∀ fuel r n, processPredictionsChaotic env fuel p st = some (r, n) →
        n = (survivors (chaoticAccepts p st.canvas.width st.canvas.height)
          p.scores.shape1).length ∧
        ∃ T, Extends st r T ∧ T.filter (fun op => !op.isFillRect) =
          (survivors (chaoticAccepts p st.canvas.width st.canvas.height) p.scores.shape1).map
            (fun i => outlineOf (regionAt p st.canvas.width st.canvas.height i))) ∧
      ((∀ i ∈ survivors (chaoticAccepts p st.canvas.width st.canvas.height) p.scores.shape1,
          (∀ q, (regionAt p st.canvas.width st.canvas.height i).x = JSNum.fin q → 0 ≤ q) ∧
          (∀ q, (regionAt p st.canvas.width st.canvas.height i).y = JSNum.fin q → 0 ≤ q)) →
        ∃ r f0, ∀ fuel, f0 ≤ fuel → processPredictionsChaotic env fuel p st = some (r,
          (survivors (chaoticAccepts p st.canvas.width st.canvas.height)
            p.scores.shape1).length)) ∧
      (survivors (chaoticAccepts p st.canvas.width st.canvas.height) p.scores.shape1).Sublist
        (List.range p.scores.shape1) ∧
      (∀ i, i ∈ survivors (chaoticAccepts p st.canvas.width st.canvas.height) p.scores.shape1 ↔
        i < p.scores.shape1 ∧ chaoticAccepts p st.canvas.width st.canvas.height i = true) ∧
      (survivors (chaoticAccepts p st.canvas.width st.canvas.height) p.scores.shape1).length
        ≤ p.scores.shape1) ∧
    (survivors (refinedAccepts threeDetections 200 100) threeDetections.scores.shape1 = [0, 1] ∧
      (∃ r f0, ∀ fuel, f0 ≤ fuel →
        processPredictionsRefined env fuel threeDetections (blank 200 100) = some (r, 2)) ∧
      caption 2 = "DETECTED 2 FACE(S)") := by
  refine ⟨⟨fun fuel => processPredictionsRefined_eq env fuel p st,
      processPredictionsRefined_spec env p st,
      List.filter_sublist _, mem_survivors _ _, survivors_length_le _ _⟩,
    ⟨fun fuel => processPredictionsChaotic_eq env fuel p st,
      fun fuel r n h => processPredictionsChaotic_returned env fuel p st (r, n) h,
      fun hpos => ?_,
      List.filter_sublist _, mem_survivors _ _, survivors_length_le _ _⟩,
    threeDetections_survivors, ?_, by decide⟩
  · obtain ⟨r, f0, h, _⟩ := processPredictionsChaotic_spec env p st hpos
    exact ⟨r, f0, h⟩
  · obtain ⟨r, f0, h, _⟩ := processPredictionsRefined_spec env threeDetections (blank 200 100)
    refine ⟨r, f0, fun fuel hfuel => ?_⟩
    rw [h fuel hfuel]
    have : survivors (refinedAccepts threeDetections (blank 200 100).canvas.width
        (blank 200 100).canvas.height) threeDetections.scores.shape1 = [0, 1] :=
      threeDetections_survivors
    unfold survivors at this
    rw [this]
    rfl

theorem no_silent_drops_witness :
    (∀ i ∈ survivors (chaoticAccepts threeDetections (blank 200 100).canvas.width
        (blank 200 100).canvas.height) threeDetections.scores.shape1,
      (∀ q, (regionAt threeDetections (blank 200 100).canvas.width
        (blank 200 100).canvas.height i).x = JSNum.fin q → 0 ≤ q) ∧
      (∀ q, (regionAt threeDetections (blank 200 100).canvas.width
        (blank 200 100).canvas.height i).y = JSNum.fin q → 0 ≤ q)) ∧
    ∃ r f0, ∀ fuel, f0 ≤ fuel →
      processPredictionsChaotic envZero fuel threeDetections (blank 200 100) = some (r,
        (survivors (chaoticAccepts threeDetections (blank 200 100).canvas.width
          (blank 200 100).canvas.height) threeDetections.scores.shape1).length) :=
  ⟨threeDetections_nonneg,
    (no_silent_drops envZero threeDetections (blank 200 100)).2.1.2.2.1 threeDetections_nonneg⟩

/-! ## Refined against chaotic -/

theorem score_threshold_mono (s : JSNum) (h : JSNum.gt s (JSNum.fin (99 / 100)) = true) :
    JSNum.gt s (JSNum.fin (7 / 10)) = true := by
  cases s <;> simp [JSNum.gt, JSNum.lt] at h ⊢
  linarith

/-- C10, counterexample. One detection with score 0.995 whose box is 4 x 2
pixels on a 200 x 100 canvas: the refined policy accepts it and returns 1,
the chaotic policy rejects it (width 4 is not above 10) and returns 0. -/
theorem chaotic_not_looser_counterexample :
    refinedAccepts tinyDetection 200 100 0 = true ∧
    chaoticAccepts tinyDetection 200 100 0 = false ∧
    (processPredictionsRefined envZero 4 tinyDetection (blank 200 100)).map Prod.snd = some 1 ∧
    (processPredictionsChaotic envZero 4 tinyDetection (blank 200 100)).map Prod.snd = some 0 := by
  refine ⟨?_, ?_, ?_, ?_⟩
  · simp [refinedAccepts, tinyDetection, mkPredictions, scoreAt, regionAt, boxSlice,
      refinedBounds, JSNum.gt, JSNum.ge, JSNum.ofNat]
    norm_num
  · simp [chaoticAccepts, tinyDetection, mkPredictions, scoreAt, regionAt, boxSlice,
      chaoticBounds, JSNum.gt, JSNum.ofNat]
    norm_num
  · have h2 : roundDouble 2 = 2 := by simpa using roundDouble_natCast 2 (by norm_num)
    have h4 : roundDouble 4 = 4 := by simpa using roundDouble_natCast 4 (by norm_num)
    have h50 : roundDouble 50 = 50 := by simpa using roundDouble_natCast 50 (by norm_num)
    have h100 : roundDouble 100 = 100 := by simpa using roundDouble_natCast 100 (by norm_num)
    have h200 : roundDouble 200 = 200 := by simpa using roundDouble_natCast 200 (by norm_num)
    norm_num [processPredictionsRefined, tinyDetection, mkPredictions, blank, List.range,
      List.range.loop, refinedBody, refinedAccepts, scoreAt, regionAt, boxSlice, refinedBounds,
      JSNum.gt, JSNum.ge, JSNum.ofNat, refinedEmit, refinedPixelSize, pixelateFace,
      pixelateRows, pixelateRow, drawBoundingBox, fillCell, h2, h4, h50, h100, h200]
  · simp [processPredictionsChaotic, tinyDetection, mkPredictions, blank, List.range,
      List.range.loop, chaoticBody, chaoticAccepts, scoreAt, regionAt, boxSlice, chaoticBounds,
      JSNum.gt, JSNum.ofNat]
    norm_num

/-- C10, amended. Every detection that the refined policy accepts and whose
region has `width > 10` and `height > 10` is also accepted by the chaotic
policy (its score, above 0.99, is above 0.7); hence the chaotic policy
accepts at least as many detections as the refined policy accepts with
`width > 10` and `height > 10`, and on the same input the chaotic count,
whenever the chaotic run returns, is at least that number; the chaotic run
returns when every region it accepts starts at non-negative (or non-finite)
coordinates. -/
theorem chaotic_accepts_large_refined (env : Env) (p : Predictions) (st : State) (i : Nat)
    (hR : refinedAccepts p st.canvas.width st.canvas.height i = true)
    (hB : chaoticBounds (regionAt p st.canvas.width st.canvas.height i) = true) :
    chaoticAccepts p st.canvas.width st.canvas.height i = true ∧
    (survivors (fun k => refinedAccepts p st.canvas.width st.canvas.height k &&
        chaoticBounds (regionAt p st.canvas.width st.canvas.height k)) p.scores.shape1).length
      ≤ (survivors (chaoticAccepts p st.canvas.width st.canvas.height) p.scores.shape1).length ∧
    (∀ fuel r n, processPredictionsChaotic env fuel p st = some (r, n) →
      (survivors (fun k => refinedAccepts p st.canvas.width st.canvas.height k &&
        chaoticBounds (regionAt p st.canvas.width st.canvas.height k)) p.scores.shape1).length
        ≤ n) ∧
    ((∀ k ∈ survivors (chaoticAccepts p st.canvas.width st.canvas.height) p.scores.shape1,
        (∀ q, (regionAt p st.canvas.width st.canvas.height k).x = JSNum.fin q → 0 ≤ q) ∧
        (∀ q, (regionAt p st.canvas.width st.canvas.height k).y = JSNum.fin q → 0 ≤ q)) →
      ∃ r n f0,
        (∀ fuel, f0 ≤ fuel → processPredictionsChaotic env fuel p st = some (r, n)) ∧
        (survivors (fun k => refinedAccepts p st.canvas.width st.canvas.height k &&
          chaoticBounds (regionAt p st.canvas.width st.canvas.height k))
          p.scores.shape1).length ≤ n) := by
  have key : ∀ k, (refinedAccepts p st.canvas.width st.canvas.height k &&
      chaoticBounds (regionAt p st.canvas.width st.canvas.height k)) = true →
      chaoticAccepts p st.canvas.width st.canvas.height k = true := by
    intro k hk
    simp only [refinedAccepts, chaoticAccepts, Bool.and_eq_true] at hk ⊢
    exact ⟨score_threshold_mono _ hk.1.1, hk.2⟩
  have hlen : (survivors (fun k => refinedAccepts p st.canvas.width st.canvas.height k &&
        chaoticBounds (regionAt p st.canvas.width st.canvas.height k)) p.scores.shape1).length
      ≤ (survivors (chaoticAccepts p st.canvas.width st.canvas.height)
        p.scores.shape1).length := by
    unfold survivors
    exact (List.monotone_filter_right _ key).length_le
  refine ⟨key i (by simp [hR, hB]), hlen, ?_, ?_⟩
  · intro fuel r n h
    have := (processPredictionsChaotic_returned env fuel p st (r, n) h).1
    simp only at this
    rw [this]
    exact hlen
  · intro hpos
    obtain ⟨r, f0, h, _⟩ := processPredictionsChaotic_spec env p st hpos
    exact ⟨r, _, f0, h, hlen⟩

theorem chaotic_accepts_large_refined_witness :
    refinedAccepts threeDetections (blank 200 100).canvas.width
      (blank 200 100).canvas.height 0 = true ∧
    chaoticBounds (regionAt threeDetections (blank 200 100).canvas.width
      (blank 200 100).canvas.height 0) = true ∧
    chaoticAccepts threeDetections (blank 200 100).canvas.width
      (blank 200 100).canvas.height 0 = true ∧
    (survivors (fun k => refinedAccepts threeDetections (blank 200 100).canvas.width
          (blank 200 100).canvas.height k &&
        chaoticBounds (regionAt threeDetections (blank 200 100).canvas.width
          (blank 200 100).canvas.height k)) threeDetections.scores.shape1).length
      ≤ (survivors (chaoticAccepts threeDetections (blank 200 100).canvas.width
          (blank 200 100).canvas.height) threeDetections.scores.shape1).length :=
  have hR : refinedAccepts threeDetections (blank 200 100).canvas.width
      (blank 200 100).canvas.height 0 = true := by
    simp [refinedAccepts, threeDetections, mkPredictions, scoreAt, regionAt, boxSlice,
      refinedBounds, JSNum.gt, JSNum.ge, JSNum.ofNat, blank]
    norm_num
  have hB : chaoticBounds (regionAt threeDetections (blank 200 100).canvas.width
      (blank 200 100).canvas.height 0) = true := by
    simp [threeDetections, mkPredictions, regionAt, boxSlice, chaoticBounds, JSNum.gt,
      JSNum.ofNat, blank]
    norm_num
  ⟨hR, hB, (chaotic_accepts_large_refined envZero threeDetections (blank 200 100) 0 hR hB).1,
    (chaotic_accepts_large_refined envZero threeDetections (blank 200 100) 0 hR hB).2.1⟩

/-! ## Malformed records -/

theorem boxSlice_length_le (p : Predictions) (i : Nat) : (boxSlice p i).length ≤ 4 := by
  unfold boxSlice
  rw [List.length_take]
  have : (i + 1) * 4 - i * 4 = 4 := by omega
  rw [this]
  exact min_le_left _ _

theorem mul_ofNat_eq_fin (a : JSNum) (n : Nat) (q : ℚ)
    (h : JSNum.mul a (JSNum.ofNat n) = JSNum.fin q) : ∃ b, a = JSNum.fin b := by
  cases a with
  | fin b => exact ⟨b, rfl⟩
  | nan => simp [JSNum.mul] at h
  | pinf =>
    simp only [JSNum.mul, JSNum.ofNat, JSNum.signedInf, JSNum.sign] at h
    split_ifs at h
  | ninf =>
    simp only [JSNum.mul, JSNum.ofNat, JSNum.signedInf, JSNum.sign] at h
    split_ifs at h

theorem sub_eq_fin (a b : JSNum) (q : ℚ) (h : JSNum.sub a b = JSNum.fin q) :
    (∃ x, a = JSNum.fin x) ∧ ∃ y, b = JSNum.fin y := by
  cases a <;> cases b <;> simp [JSNum.sub, JSNum.add, JSNum.neg] at h ⊢

theorem mul_ofNat_ne_nan (a : JSNum) (n : Nat)
    (h : JSNum.mul a (JSNum.ofNat n) ≠ JSNum.nan) : a ≠ JSNum.nan := by
  rintro rfl
  exact h rfl

theorem sub_ne_nan (a b : JSNum) (h : JSNum.sub a b ≠ JSNum.nan) :
    a ≠ JSNum.nan ∧ b ≠ JSNum.nan := by
  cases a <;> cases b <;> simp [JSNum.sub, JSNum.add, JSNum.neg] at h ⊢

theorem gt_ne_nan (a : JSNum) (t : ℚ) (h : JSNum.gt a (JSNum.fin t) = true) :
    a ≠ JSNum.nan := by
  rintro rfl
  simp [JSNum.gt, JSNum.lt] at h

/-- If the four destructured elements of a slice of at most four numbers
all satisfy `P`, and the missing-element value does not, the slice has four
numbers and they all satisfy `P`. -/
theorem slice_all (P : JSNum → Prop) (hnan : ¬ P JSNum.nan) (s : List JSNum)
    (hlen : s.length ≤ 4)
    (h0 : P (s.getD 0 JSNum.nan)) (h1 : P (s.getD 1 JSNum.nan))
    (h2 : P (s.getD 2 JSNum.nan)) (h3 : P (s.getD 3 JSNum.nan)) :
    ¬ s.length < 4 ∧ ∀ v ∈ s, P v := by
  rcases s with _ | ⟨a, _ | ⟨b, _ | ⟨c, _ | ⟨d, _ | ⟨e, t⟩⟩⟩⟩⟩
  · exact absurd h0 hnan
  · exact absurd h1 hnan
  · exact absurd h2 hnan
  · exact absurd h3 hnan
  · refine ⟨by simp, ?_⟩
    intro v hv
    simp only [List.mem_cons, List.mem_singleton, List.not_mem_nil, or_false] at hv
    rcases hv with rfl | rfl | rfl | rfl
    · exact h0
    · exact h1
    · exact h2
    · exact h3
  · simp at hlen

theorem refinedAccepts_of_malformed (p : Predictions) (W H i : Nat) (h : malformed p i) :
    refinedAccepts p W H i = false := by
  by_contra hne
  have hacc : refinedAccepts p W H i = true := by simpa using hne
  simp only [refinedAccepts, Bool.and_eq_true] at hacc
  obtain ⟨x, y, w, ht, hreg, -⟩ := (refinedBounds_iff _ _ _).mp hacc.2
  simp only [regionAt, Region.mk.injEq] at hreg
  obtain ⟨hx, hy, hw, hh⟩ := hreg
  obtain ⟨x1, hx1⟩ := mul_ofNat_eq_fin _ _ _ hx
  obtain ⟨y1, hy1⟩ := mul_ofNat_eq_fin _ _ _ hy
  obtain ⟨dw, hdw⟩ := mul_ofNat_eq_fin _ _ _ hw
  obtain ⟨dh, hdh⟩ := mul_ofNat_eq_fin _ _ _ hh
  obtain ⟨⟨x2, hx2⟩, -⟩ := sub_eq_fin _ _ _ hdw
  obtain ⟨⟨y2, hy2⟩, -⟩ := sub_eq_fin _ _ _ hdh
  have hall := slice_all (fun v => v.isFinite = true) (by simp [JSNum.isFinite]) (boxSlice p i)
    (boxSlice_length_le p i) (by rw [hy1]; rfl) (by rw [hx1]; rfl) (by rw [hy2]; rfl)
    (by rw [hx2]; rfl)
  rcases h with h | ⟨v, hv, hfin⟩
  · exact hall.1 h
  · have := hall.2 v hv
    simp [hfin] at this

theorem chaoticAccepts_of_malformedNaN (p : Predictions) (W H i : Nat)
    (h : malformedNaN p i) : chaoticAccepts p W H i = false := by
  by_contra hne
  have hacc : chaoticAccepts p W H i = true := by simpa using hne
  simp only [chaoticAccepts, chaoticBounds, Bool.and_eq_true] at hacc
  obtain ⟨-, hw, hh⟩ := hacc
  have hw2 := sub_ne_nan _ _ (mul_ofNat_ne_nan _ _ (gt_ne_nan _ _ hw))
  have hh2 := sub_ne_nan _ _ (mul_ofNat_ne_nan _ _ (gt_ne_nan _ _ hh))
  have hall := slice_all (fun v => v ≠ JSNum.nan) (by simp) (boxSlice p i)
    (boxSlice_length_le p i) hh2.2 hw2.2 hh2.1 hw2.1
  rcases h with h | h
  · exact hall.1 h
  · exact hall.2 _ h rfl

theorem foldlM_skip {α : Type} (f : α → Nat → Option α) (i : Nat)
    (hi : ∀ a, f a i = some a) :
    ∀ (l : List Nat) (a : α),
      l.foldlM f a = (l.filter (fun k => decide (k ≠ i))).foldlM f a := by
  intro l
  induction l with
  | nil => intro a; rfl
  | cons b l ih =>
    intro a
    by_cases hb : b = i
    · subst hb
      simp only [List.foldlM_cons, hi, List.filter_cons, ne_eq, not_true_eq_false,
        decide_False, Bool.false_eq_true, if_false]
      exact ih a
    · have hd : List.filter (fun k => decide (k ≠ i)) (b :: l)
          = b :: List.filter (fun k => decide (k ≠ i)) l := by
        rw [List.filter_cons]; simp [hb]
      rw [hd, List.foldlM_cons, List.foldlM_cons]
      cases f a b with
      | none => rfl
      | some a1 => exact ih a1

/-- C9, counterexample. One detection with score 0.9 and box
`[0, 0, 1, +Infinity]` on a 15 x 15 canvas: the record is malformed (its
`x2` is not finite), yet the chaotic policy accepts it, outlines it with
the infinite width and counts it. -/
theorem malformed_record_counterexample :
    malformed infiniteDetection 0 ∧
    chaoticAccepts infiniteDetection 15 15 0 = true ∧
    (processPredictionsChaotic envZero 6 infiniteDetection (blank 15 15)).map
      (fun r => (r.1.canvas.ops.head?, r.2)) =
      some (some (DrawOp.strokeRect (Style.named "red") 2 (JSNum.fin 0) (JSNum.fin 0)
        JSNum.pinf (JSNum.fin 15)), 1) := by
  refine ⟨?_, ?_, ?_⟩
  · right
    exact ⟨JSNum.pinf, by simp [infiniteDetection, mkPredictions, boxSlice], rfl⟩
  · simp [chaoticAccepts, infiniteDetection, mkPredictions, scoreAt, regionAt, boxSlice,
      chaoticBounds, JSNum.gt, JSNum.lt, JSNum.ofNat, JSNum.sub, JSNum.neg, JSNum.add,
      JSNum.mul, JSNum.signedInf, JSNum.sign]
    norm_num
  · have h5 : roundDouble 5 = 5 := by simpa using roundDouble_natCast 5 (by norm_num)
    have h10 : roundDouble 10 = 10 := by simpa using roundDouble_natCast 10 (by norm_num)
    have h15 : roundDouble 15 = 15 := by simpa using roundDouble_natCast 15 (by norm_num)
    have h20 : roundDouble 20 = 20 := by simpa using roundDouble_natCast 20 (by norm_num)
    norm_num [processPredictionsChaotic, infiniteDetection, mkPredictions, blank, envZero,
      List.range, List.range.loop, chaoticBody, chaoticAccepts, scoreAt, regionAt, boxSlice,
      chaoticBounds, JSNum.gt, JSNum.lt, JSNum.ofNat, JSNum.sub, JSNum.neg, JSNum.add,
      JSNum.mul, JSNum.signedInf, JSNum.sign, chaoticEmit, chaoticPixelSize, pixelateFace,
      pixelateRows, pixelateRow, drawBoundingBox, fillCell, JSNum.dadd, JSNum.dsub,
      JSNum.round, roundDouble_zero, h5, h10, h15, h20]

/-- C9, amended. Under the refined policy a malformed record (a missing,
NaN or infinite box coordinate) fails the tests, and the run equals the run
of the loop over all indices but that one: the record is not outlined, not
pixelated, not counted, and the others are processed as if it were absent.
Under the chaotic policy the same holds for a record with a missing or NaN
coordinate; a record whose only defect is an infinite coordinate is not
covered. -/
theorem malformed_record_skip (env : Env) (fuel : Nat) (p : Predictions) (st : State)
    (i : Nat) (h : malformed p i) :
    refinedAccepts p st.canvas.width st.canvas.height i = false ∧
    processPredictionsRefined env fuel p st =
      ((List.range p.scores.shape1).filter (fun k => decide (k ≠ i))).foldlM
        (refinedBody env fuel p st.canvas.width st.canvas.height) (st, 0) ∧
    i ∉ survivors (refinedAccepts p st.canvas.width st.canvas.height) p.scores.shape1 ∧
    (malformedNaN p i →
      chaoticAccepts p st.canvas.width st.canvas.height i = false ∧
      processPredictionsChaotic env fuel p st =
        ((List.range p.scores.shape1).filter (fun k => decide (k ≠ i))).foldlM
          (chaoticBody env fuel p st.canvas.width st.canvas.height) (st, 0) ∧
      i ∉ survivors (chaoticAccepts p st.canvas.width st.canvas.height) p.scores.shape1) := by
  have hR := refinedAccepts_of_malformed p st.canvas.width st.canvas.height i h
  refine ⟨hR, ?_, ?_, ?_⟩
  · exact foldlM_skip _ i (fun a => by simp [refinedBody, hR]) _ _
  · simp [mem_survivors, hR]
  · intro hN
    have hC := chaoticAccepts_of_malformedNaN p st.canvas.width st.canvas.height i hN
    refine ⟨hC, ?_, ?_⟩
    · exact foldlM_skip _ i (fun a => by simp [chaoticBody, hC]) _ _
    · simp [mem_survivors, hC]

theorem malformed_record_skip_witness :
    malformed nanDetection 0 ∧
    (refinedAccepts nanDetection (blank 200 100).canvas.width
      (blank 200 100).canvas.height 0 = false ∧
    processPredictionsRefined envZero 4 nanDetection (blank 200 100) =
      ((List.range nanDetection.scores.shape1).filter (fun k => decide (k ≠ 0))).foldlM
        (refinedBody envZero 4 nanDetection (blank 200 100).canvas.width
          (blank 200 100).canvas.height) (blank 200 100, 0) ∧
    0 ∉ survivors (refinedAccepts nanDetection (blank 200 100).canvas.width
      (blank 200 100).canvas.height) nanDetection.scores.shape1 ∧
    (malformedNaN nanDetection 0 →
      chaoticAccepts nanDetection (blank 200 100).canvas.width
        (blank 200 100).canvas.height 0 = false ∧
      processPredictionsChaotic envZero 4 nanDetection (blank 200 100) =
        ((List.range nanDetection.scores.shape1).filter (fun k => decide (k ≠ 0))).foldlM
          (chaoticBody envZero 4 nanDetection (blank 200 100).canvas.width
            (blank 200 100).canvas.height) (blank 200 100, 0) ∧
      0 ∉ survivors (chaoticAccepts nanDetection (blank 200 100).canvas.width
        (blank 200 100).canvas.height) nanDetection.scores.shape1)) :=
  have h : malformed nanDetection 0 :=
    Or.inr ⟨JSNum.nan, by simp [nanDetection, mkPredictions, boxSlice], rfl⟩
  ⟨h, malformed_record_skip envZero 4 nanDetection (blank 200 100) 0 h⟩

/-! ## The image-load handler -/

theorem survivors_eq_nil (accepts : Nat → Bool) (n : Nat)
    (h : ∀ i, i < n → accepts i = false) : survivors accepts n = [] := by
  unfold survivors
  rw [List.filter_eq_nil_iff]
  intro i hi
  rw [List.mem_range] at hi
  simp [h i hi]

theorem processPredictionsRefined_none_survive (env : Env) (fuel : Nat) (p : Predictions)
    (st : State)
    (h : ∀ i, i < p.scores.shape1 → refinedAccepts p st.canvas.width st.canvas.height i = false) :
    processPredictionsRefined env fuel p st = some (st, 0) := by
  rw [processPredictionsRefined_eq]
  have := survivors_eq_nil _ _ h
  unfold survivors at this
  rw [this]
  rfl

theorem processPredictionsChaotic_none_survive (env : Env) (fuel : Nat) (p : Predictions)
    (st : State)
    (h : ∀ i, i < p.scores.shape1 → chaoticAccepts p st.canvas.width st.canvas.height i = false) :
    processPredictionsChaotic env fuel p st = some (st, 0) := by
  rw [processPredictionsChaotic_eq]
  have := survivors_eq_nil _ _ h
  unfold survivors at this
  rw [this]
  rfl

/-- C7 (empty selection). If no detection of the predictions survives the
filtering of the policy chosen by the coin flip (in particular when there
is no detection at all), the handler returns for every fuel, the policy
having returned 0 and drawn nothing: the canvas holds the cleared surface,
the image, and the caption `DETECTED 0 FACE(S)`, nothing else.  Under
either policy an input without survivors gives count 0 and an unchanged
state.  Whenever the handler returns with a loaded model, the last command
is the caption `DETECTED n FACE(S)` for the count `n` the chosen policy
returned. -/
theorem empty_selection (env : Env) (fuel : Nat) (m : Model) (img : Image) (st : State)
    (h : ∀ i, i < (m.executeAsync (setupCanvas env img st).canvas).scores.shape1 →
      (if env.random st.draws < 1 / 2
        then refinedAccepts (m.executeAsync (setupCanvas env img st).canvas)
          img.width img.height i
        else chaoticAccepts (m.executeAsync (setupCanvas env img st).canvas)
          img.width img.height i) = false) :
    (∃ r, imgOnload env fuel (some m) img st = some r ∧
      r.canvas.width = img.width ∧ r.canvas.height = img.height ∧
      r.canvas.ops =
        [DrawOp.clearRect (JSNum.fin 0) (JSNum.fin 0) (JSNum.ofNat img.width)
          (JSNum.ofNat img.height),
         DrawOp.drawImage img (JSNum.fin 0) (JSNum.fin 0),
         DrawOp.fillText (JSNum.mul (JSNum.ofNat img.width) (JSNum.fin (5 / 100)))
          (Style.named "white") "DETECTED 0 FACE(S)"
          (JSNum.div (JSNum.sub (JSNum.ofNat img.width)
            (env.measureText (JSNum.mul (JSNum.ofNat img.width) (JSNum.fin (5 / 100)))
              "DETECTED 0 FACE(S)")) (JSNum.fin 2))
          (JSNum.sub (JSNum.ofNat img.height) (JSNum.fin 20))]) ∧
    (∀ (p : Predictions) (s : State),
      (∀ i, i < p.scores.shape1 → refinedAccepts p s.canvas.width s.canvas.height i = false) →
      processPredictionsRefined env fuel p s = some (s, 0)) ∧
    (∀ (p : Predictions) (s : State),
      (∀ i, i < p.scores.shape1 → chaoticAccepts p s.canvas.width s.canvas.height i = false) →
      processPredictionsChaotic env fuel p s = some (s, 0)) ∧
    (∀ r, imgOnload env fuel (some m) img st = some r →
      ∃ s n,
        (if env.random st.draws < 1 / 2
          then processPredictionsRefined env fuel (m.executeAsync (setupCanvas env img st).canvas)
            { setupCanvas env img st with draws := st.draws + 1 }
          else processPredictionsChaotic env fuel (m.executeAsync (setupCanvas env img st).canvas)
            { setupCanvas env img st with draws := st.draws + 1 }) = some (s, n) ∧
        r = addTextToCanvas env (caption n) s ∧
        caption n = "DETECTED " ++ toString n ++ " FACE(S)" ∧
        ∃ size tx ty, r.canvas.ops.getLast? =
          some (DrawOp.fillText size (Style.named "white") (caption n) tx ty)) := by
  refine ⟨?_, processPredictionsRefined_none_survive env fuel,
    processPredictionsChaotic_none_survive env fuel, ?_⟩
  · have hrun : (if env.random st.draws < 1 / 2
        then processPredictionsRefined env fuel (m.executeAsync (setupCanvas env img st).canvas)
          { setupCanvas env img st with draws := st.draws + 1 }
        else processPredictionsChaotic env fuel (m.executeAsync (setupCanvas env img st).canvas)
          { setupCanvas env img st with draws := st.draws + 1 }) =
        some ({ setupCanvas env img st with draws := st.draws + 1 }, 0) := by
      by_cases hc : env.random st.draws < 1 / 2
      · simp only [hc, if_true] at h ⊢
        exact processPredictionsRefined_none_survive env fuel _ _ h
      · simp only [hc, if_false] at h ⊢
        exact processPredictionsChaotic_none_survive env fuel _ _ h
    refine ⟨addTextToCanvas env (caption 0)
      { setupCanvas env img st with draws := st.draws + 1 }, ?_, rfl, rfl, ?_⟩
    · have hrun2 := hrun
      simp only [imgOnload]
      have hd : (setupCanvas env img st).draws = st.draws := rfl
      rw [hd, hrun2]
    · have hcap : caption 0 = "DETECTED 0 FACE(S)" := by decide
      rw [hcap]
      rfl
  · intro r hr
    simp only [imgOnload] at hr
    have hd : (setupCanvas env img st).draws = st.draws := rfl
    rw [hd] at hr
    cases hrun : (if env.random st.draws < 1 / 2
        then processPredictionsRefined env fuel (m.executeAsync (setupCanvas env img st).canvas)
          { setupCanvas env img st with draws := st.draws + 1 }
        else processPredictionsChaotic env fuel (m.executeAsync (setupCanvas env img st).canvas)
          { setupCanvas env img st with draws := st.draws + 1 }) with
    | none => rw [hrun] at hr; simp at hr
    | some res =>
      obtain ⟨s, n⟩ := res
      rw [hrun] at hr
      simp only [Option.some.injEq] at hr
      refine ⟨s, n, rfl, hr.symm, rfl, ?_⟩
      rw [← hr]
      simp [addTextToCanvas]

theorem empty_selection_witness :
    (∀ i, i < (lowScoreModel.executeAsync
        (setupCanvas envZero sampleImage (blank 300 150)).canvas).scores.shape1 →
      (if envZero.random (blank 300 150).draws < 1 / 2
        then refinedAccepts (lowScoreModel.executeAsync
          (setupCanvas envZero sampleImage (blank 300 150)).canvas)
          sampleImage.width sampleImage.height i
        else chaoticAccepts (lowScoreModel.executeAsync
          (setupCanvas envZero sampleImage (blank 300 150)).canvas)
          sampleImage.width sampleImage.height i) = false) ∧
    ∃ r, imgOnload envZero 0 (some lowScoreModel) sampleImage (blank 300 150) = some r ∧
      r.canvas.width = sampleImage.width ∧ r.canvas.height = sampleImage.height ∧
      r.canvas.ops =
        [DrawOp.clearRect (JSNum.fin 0) (JSNum.fin 0) (JSNum.ofNat sampleImage.width)
          (JSNum.ofNat sampleImage.height),
         DrawOp.drawImage sampleImage (JSNum.fin 0) (JSNum.fin 0),
         DrawOp.fillText (JSNum.mul (JSNum.ofNat sampleImage.width) (JSNum.fin (5 / 100)))
          (Style.named "white") "DETECTED 0 FACE(S)"
          (JSNum.div (JSNum.sub (JSNum.ofNat sampleImage.width)
            (envZero.measureText
              (JSNum.mul (JSNum.ofNat sampleImage.width) (JSNum.fin (5 / 100)))
              "DETECTED 0 FACE(S)")) (JSNum.fin 2))
          (JSNum.sub (JSNum.ofNat sampleImage.height) (JSNum.fin 20))] :=
  have h : ∀ i, i < (lowScoreModel.executeAsync
        (setupCanvas envZero sampleImage (blank 300 150)).canvas).scores.shape1 →
      (if envZero.random (blank 300 150).draws < 1 / 2
        then refinedAccepts (lowScoreModel.executeAsync
          (setupCanvas envZero sampleImage (blank 300 150)).canvas)
          sampleImage.width sampleImage.height i
        else chaoticAccepts (lowScoreModel.executeAsync
          (setupCanvas envZero sampleImage (blank 300 150)).canvas)
          sampleImage.width sampleImage.height i) = false := by
    intro i hi
    have hi0 : i = 0 := by
      simp [lowScoreModel, mkPredictions] at hi
      exact hi
    subst hi0
    simp [envZero, lowScoreModel, mkPredictions, refinedAccepts, scoreAt, JSNum.gt]
    norm_num
  ⟨h, (empty_selection envZero 0 lowScoreModel sampleImage (blank 300 150) h).1⟩

/-- C8, counterexample. With no model loaded, a 200 x 100 image and a
300 x 150 canvas: after the handler the canvas is 200 x 100 and holds the
cleared surface and the image, so its size and content have changed. -/
theorem model_unavailable_counterexample :
    (imgOnload envZero 0 none sampleImage (blank 300 150)).map (fun r => r.canvas.width) =
      some 200 ∧
    (imgOnload envZero 0 none sampleImage (blank 300 150)).map (fun r => r.canvas.ops) =
      some [DrawOp.clearRect (JSNum.fin 0) (JSNum.fin 0) (JSNum.fin 200) (JSNum.fin 100),
            DrawOp.drawImage sampleImage (JSNum.fin 0) (JSNum.fin 0)] ∧
    (blank 300 150).canvas.width = 300 ∧ (blank 300 150).canvas.ops = [] ∧
    (imgOnload envZero 0 none sampleImage (blank 300 150)).map (fun r => r.canvas) ≠
      some (blank 300 150).canvas := by
  refine ⟨?_, ?_, rfl, rfl, ?_⟩
  · simp [imgOnload, setupCanvas, sampleImage]
  · simp [imgOnload, setupCanvas, sampleImage, JSNum.ofNat]
  · simp [imgOnload, setupCanvas, sampleImage, blank]

/-- C8, amended. If the model is not loaded when the image finishes
loading, the handler runs `setupCanvas` (the canvas takes the size of the
image, is cleared, and the image is drawn) and returns, for every fuel,
before any detection processing: no random draw is made, and no outline, no
pixelation cell and no caption is drawn; the error is logged. -/
theorem model_unavailable (env : Env) (fuel : Nat) (img : Image) (st : State) :
    ∃ r, imgOnload env fuel none img st = some r ∧
      r.canvas = (setupCanvas env img st).canvas ∧
      r.canvas.width = img.width ∧ r.canvas.height = img.height ∧
      r.canvas.ops =
        [DrawOp.clearRect (JSNum.fin 0) (JSNum.fin 0) (JSNum.ofNat img.width)
          (JSNum.ofNat img.height),
         DrawOp.drawImage img (JSNum.fin 0) (JSNum.fin 0)] ∧
      r.draws = st.draws ∧
      r.console = st.console ++ ["Model not loaded yet."] :=
  ⟨_, rfl, rfl, rfl, rfl, rfl, rfl, rfl⟩

end Script
